import Mathlib

/-!
Verification of the WilsonGiese/graphql front end (Go) against its
natural-language specification.

The development shallowly embeds the Go sources:
  * the lexer (`lexer.go` / its newer revision with position tracking),
  * the parser cursor and recursive-descent routines (`parser.go`),
  * the schema model and builder (`schema` package),
  * the document validator (`validator.go`).

Go's `bufio.Reader` is modelled as the remaining list of code points plus the
scanner's running line/column counters; `UnreadRune` pushes the last rune
back.  Go errors are modelled as `Except` with the exact message strings the
code builds with `fmt.Errorf`; Go panics (including nil-map assignment and
nil-pointer dereference) are modelled as explicit error values.  Loops that
are not structurally recursive take an explicit fuel argument; theorems
quantify over the fuel.
-/

set_option maxHeartbeats 1000000

namespace GraphQL

/-- Lexical token kinds, from `token.go` (`TokenType` constants, order kept). -/
inductive TokenType where
  | EOF
  | UnicodeBOM
  | Whitespace
  | LineTerminator
  | Comma
  | SourceCharacter
  | Comment
  | Exclamation
  | Dollar
  | OpenParen
  | ClosedParen
  | Spread
  | Colon
  | Equals
  | At
  | OpenBracket
  | ClosedBracket
  | OpenBrace
  | ClosedBrace
  | VerticalBar
  | Name
  | Integer
  | Float
  | String
  | Invalid
deriving DecidableEq, Repr

/-- The `stringer`-generated `TokenType.String` used in parser error
messages: the name of the constant. -/
def tokenTypeString : TokenType → String
  | .EOF => "EOF"
  | .UnicodeBOM => "UnicodeBOM"
  | .Whitespace => "Whitespace"
  | .LineTerminator => "LineTerminator"
  | .Comma => "Comma"
  | .SourceCharacter => "SourceCharacter"
  | .Comment => "Comment"
  | .Exclamation => "Exclamation"
  | .Dollar => "Dollar"
  | .OpenParen => "OpenParen"
  | .ClosedParen => "ClosedParen"
  | .Spread => "Spread"
  | .Colon => "Colon"
  | .Equals => "Equals"
  | .At => "At"
  | .OpenBracket => "OpenBracket"
  | .ClosedBracket => "ClosedBracket"
  | .OpenBrace => "OpenBrace"
  | .ClosedBrace => "ClosedBrace"
  | .VerticalBar => "VerticalBar"
  | .Name => "Name"
  | .Integer => "Integer"
  | .Float => "Float"
  | .String => "String"
  | .Invalid => "Invalid"

/-- Modelled from the spec: the revision of `Token` used by the
position-tracking lexer is not under `src/` (only `src/token.go`'s older
`{Type, Value, Line, Column}` shape is); the spec gives the token shape as
`{kind, literal text, line, column-start, column-end}`. -/
structure Token where
  type : TokenType
  Value : String
  Line : Int
  ColumnStart : Int
  ColumnEnd : Int
deriving DecidableEq, Repr

/-- Modelled from the spec: `InvalidToken`, the zero-ish token returned
alongside lexer errors (not under `src/`; used throughout the lexer and
parser sources). -/
def InvalidToken : Token := { type := .Invalid, Value := "", Line := 0, ColumnStart := 0, ColumnEnd := 0 }

/-- The lexer state: `bufio.Reader` becomes the list of remaining code
points; `line`, `column`, `savedColumn` are the scanner counters from
the `lexer` struct. -/
structure LexState where
  line : Int
  column : Int
  savedColumn : Int
  input : List Char
deriving DecidableEq, Repr

/-- `lexer{reader: bufio.NewReader(r)}`: counters start at their zero
values. -/
def initLexState (s : String) : LexState :=
  { line := 0, column := 0, savedColumn := 0, input := s.data }

def incrementColumn (s : LexState) : LexState :=
  { s with column := s.column + 1, savedColumn := -1 }

def incrementLine (s : LexState) : LexState :=
  { s with line := s.line + 1, savedColumn := s.column, column := 0 }

def undoLastIncrement (s : LexState) : LexState :=
  if s.savedColumn = -1 then
    { s with column := s.column - 1 }
  else
    { s with line := s.line - 1, column := s.savedColumn }

/-- `lexer.readRune`: increment the column counter, then read; a failed read
(io.EOF, modelled as `none`) still leaves the counter incremented, exactly as
in the Go code. -/
def readRune (s : LexState) : Option Char × LexState :=
  let s' := incrementColumn s
  match s'.input with
  | [] => (none, s')
  | c :: rest => (some c, { s' with input := rest })

/-- `lexer.unreadRune`: undo the last counter increment and push the rune
back onto the reader. -/
def unreadRune (c : Char) (s : LexState) : LexState :=
  let s' := undoLastIncrement s
  { s' with input := c :: s'.input }

/-- `lexer.peek`. -/
def peek (s : LexState) : Option Char × LexState :=
  match readRune s with
  | (some c, s') => (some c, unreadRune c s')
  | (none, s') => (none, s')

/-- Outcome of `lexer.consume`: the error is either
`errNotEnoughMatchingRunes` or `io.EOF` (reader errors cannot occur in the
model). -/
inductive ConsumeErr where
  | notEnoughMatchingRunes
  | eof
deriving DecidableEq, Repr

/-- `lexer.consume`: read `n` contiguous matching runes; on failure return
everything read so far together with the error. -/
def consume (n : Nat) (matchesFn : Char → Bool) (s : LexState) : (String × Option ConsumeErr) × LexState :=
  match n with
  | 0 => (("", none), s)
  | Nat.succ m =>
    match readRune s with
    | (some c, s') =>
      if matchesFn c then
        let ((str, e), s'') := consume m matchesFn s'
        ((c.toString ++ str, e), s'')
      else
        ((c.toString, some .notEnoughMatchingRunes), s')
    | (none, s') => (("", some .eof), s')

theorem readRune_some_input {s : LexState} {c : Char} {s' : LexState}
    (h : readRune s = (some c, s')) : s.input = c :: s'.input := by
  unfold readRune at h
  cases hi : (incrementColumn s).input with
  | nil => simp [hi] at h
  | cons d rest =>
    simp [hi] at h
    have : s.input = d :: rest := by simpa [incrementColumn] using hi
    rw [this, h.1, ← h.2]

theorem readRune_some_length {s : LexState} {c : Char} {s' : LexState}
    (h : readRune s = (some c, s')) : s'.input.length < s.input.length := by
  rw [readRune_some_input h]
  simp

/-- The loop body of `lexer.consumeAll`, with fuel (each successful read
consumes one rune, so the fuel below never runs out; the zero case is
unreachable). -/
def consumeAllGo (matchesFn : Char → Bool) : Nat → LexState → String × LexState
  | 0, s => ("", s)
  | fuel + 1, s =>
    match readRune s with
    | (some c, s') =>
      if matchesFn c then
        let (str, s'') := consumeAllGo matchesFn fuel s'
        (c.toString ++ str, s'')
      else
        ("", unreadRune c s')
    | (none, s') => ("", s')

/-- `lexer.consumeAll`: read matching runes until a non-match (unread it) or
end of input. -/
def consumeAll (matchesFn : Char → Bool) (s : LexState) : String × LexState :=
  consumeAllGo matchesFn (s.input.length + 1) s

/-- `isPeriod`. -/
def isPeriod (r : Char) : Bool := r = '.'

/-- `IsCommentCharacter`. -/
def IsCommentCharacter (r : Char) : Bool :=
  (0x20 ≤ r.toNat && r.toNat ≤ 0xFFFF) || r = '\u0009'

/-- `isNameCharacter`. -/
def isNameCharacter (r : Char) : Bool :=
  r = '_' ||
    ('a' ≤ r && r ≤ 'z') ||
    ('A' ≤ r && r ≤ 'Z') ||
    ('0' ≤ r && r ≤ '9')

/-- `isStringCharacter`. -/
def isStringCharacter (r : Char) : Bool :=
  (0x20 ≤ r.toNat && r.toNat ≤ 0xFFFF && r ≠ '"' && r ≠ '\\') || r = '\u0009'

/-- `isHexidecimalCharacter`. -/
def isHexidecimalCharacter (r : Char) : Bool :=
  ('0' ≤ r && r ≤ '9') || ('a' ≤ r && r ≤ 'f') || ('A' ≤ r && r ≤ 'F')

/-- `isIntegerCharacter`. -/
def isIntegerCharacter (r : Char) : Bool :=
  '0' ≤ r && r ≤ '9'

/-- `escapedCharacterToRune`: the fixed single-character escapes; any other
character is an error (the Go error value is only used for control flow and
message building by the caller). -/
def escapedCharacterToRune (c : Char) : Option Char :=
  match c with
  | 'b' => some '\u0008'
  | 't' => some '\u0009'
  | 'n' => some '\u000A'
  | 'f' => some '\u000C'
  | 'r' => some '\u000D'
  | '"' => some '"'
  | '\\' => some '\\'
  | '/' => some '/'
  | _ => none

/-- The value of a hexadecimal digit, as `strconv.ParseInt(_, 16, 64)`
computes it for a checked hex character. -/
def hexDigitValue (c : Char) : Nat :=
  if '0' ≤ c && c ≤ '9' then c.toNat - '0'.toNat
  else if 'a' ≤ c && c ≤ 'f' then c.toNat - 'a'.toNat + 10
  else if 'A' ≤ c && c ≤ 'F' then c.toNat - 'A'.toNat + 10
  else 0

/-- `strconv.ParseInt(unicodeHexString, 16, 64)` on the 4-character checked
hex string. -/
def hexStringValue (s : String) : Nat :=
  s.data.foldl (fun acc c => acc * 16 + hexDigitValue c) 0

/-- `bytes.Buffer.WriteRune`: an invalid rune (a surrogate; values above
U+FFFF cannot arise from 4 hex digits) is replaced by U+FFFD, as Go's
`utf8.EncodeRune` does. -/
def writeRuneChar (n : Nat) : Char :=
  if n < 0xD800 || (0xDFFF < n && n < 0x110000) then Char.ofNat n else '�'

theorem readRune_nil (L C SC : Int) :
    readRune ⟨L, C, SC, []⟩ = (none, ⟨L, C + 1, -1, []⟩) := rfl

theorem readRune_cons (L C SC : Int) (c : Char) (rest : List Char) :
    readRune ⟨L, C, SC, c :: rest⟩ = (some c, ⟨L, C + 1, -1, rest⟩) := rfl

theorem peek_nil (L C SC : Int) :
    peek ⟨L, C, SC, []⟩ = (none, ⟨L, C + 1, -1, []⟩) := rfl

theorem peek_cons (L C SC : Int) (c : Char) (rest : List Char) :
    peek ⟨L, C, SC, c :: rest⟩ = (some c, ⟨L, C, -1, c :: rest⟩) := by
  simp [peek, readRune_cons, unreadRune, undoLastIncrement, incrementColumn]

theorem consumeAll_nil (f : Char → Bool) (L C SC : Int) :
    consumeAll f ⟨L, C, SC, []⟩ = ("", ⟨L, C + 1, -1, []⟩) := rfl

theorem consumeAll_cons (f : Char → Bool) (L C SC : Int) (c : Char) (rest : List Char) :
    consumeAll f ⟨L, C, SC, c :: rest⟩ =
      if f c then
        (c.toString ++ (consumeAll f ⟨L, C + 1, -1, rest⟩).1,
         (consumeAll f ⟨L, C + 1, -1, rest⟩).2)
      else
        ("", ⟨L, C, -1, c :: rest⟩) := by
  by_cases hc : f c
  · simp only [consumeAll, List.length_cons, consumeAllGo, readRune_cons, hc, if_true]
  · simp only [consumeAll, List.length_cons, consumeAllGo, readRune_cons, hc, if_false,
      Bool.false_eq_true]
    simp [unreadRune, undoLastIncrement]

/-- Closed form for the state reached by `consumeAll`: the matching prefix is
consumed (one column step per rune), and when the whole input matched the
final failing read still advanced the column by one. -/
theorem consumeAll_state (f : Char → Bool) (inp : List Char) : ∀ L C SC : Int,
    (consumeAll f ⟨L, C, SC, inp⟩).2 =
      ⟨L, C + (inp.takeWhile f).length + (if inp.dropWhile f = [] then 1 else 0), -1,
       inp.dropWhile f⟩ := by
  induction inp with
  | nil => intro L C SC; simp [consumeAll_nil]
  | cons c rest ih =>
    intro L C SC
    rw [consumeAll_cons]
    by_cases hc : f c
    · simp only [hc, if_true, List.takeWhile_cons_of_pos, List.dropWhile_cons_of_pos, ih]
      congr 1
      simp only [List.length_cons]
      push_cast
      ring
    · simp [hc, List.takeWhile_cons_of_neg, List.dropWhile_cons_of_neg]

theorem consume_state (n : Nat) (f : Char → Bool) : ∀ s : LexState,
    ((consume n f s).2.line = s.line ∧
     s.column ≤ (consume n f s).2.column ∧
     (consume n f s).2.input.length ≤ s.input.length) := by
  induction n with
  | zero => intro s; simp [consume]
  | succ m ih =>
    intro s
    obtain ⟨L, C, SC, inp⟩ := s
    cases inp with
    | nil => simp [consume, readRune_nil]
    | cons c rest =>
      simp only [consume, readRune_cons]
      by_cases hc : f c
      · simp only [hc, if_true]
        cases hcm : consume m f ⟨L, C + 1, -1, rest⟩ with
        | mk p s'' =>
          obtain ⟨str, e⟩ := p
          obtain ⟨h1, h2, h3⟩ := ih ⟨L, C + 1, -1, rest⟩
          rw [hcm] at h1 h2 h3
          simp only [hcm]
          dsimp only at h1 h2 h3 ⊢
          refine ⟨h1, by omega, by simpa using Nat.le_succ_of_le h3⟩
      · simp [hc]

theorem consumeAll_input_le (f : Char → Bool) (s : LexState) :
    (consumeAll f s).2.input.length ≤ s.input.length := by
  obtain ⟨L, C, SC, inp⟩ := s
  rw [consumeAll_state]
  exact (List.dropWhile_sublist f).length_le

/-- `lexer.consumeStringEscapeSequence`, acting on the accumulated string
value (the Go code mutates a `bytes.Buffer`; the model passes the buffer's
contents in and out). -/
def consumeStringEscapeSequence (value : String) (s : LexState) : Except String (String × LexState) :=
  match readRune s with
  | (some r, s') =>
    if r = 'u' then
      match consume 4 isHexidecimalCharacter s' with
      | ((unicodeHexString, none), s'') =>
        .ok (value ++ (writeRuneChar (hexStringValue unicodeHexString)).toString, s'')
      | ((unicodeHexString, some _), _) =>
        .error ("invalid escaped unicode value in String: " ++ value ++ "\\u" ++ unicodeHexString)
    else
      match escapedCharacterToRune r with
      | some escapedCharacter => .ok (value ++ escapedCharacter.toString, s')
      | none => .error ("invalid escape sequence character in String: " ++ value ++ "\\" ++ r.toString)
  | (none, _) => .error ("invalid escape sequence in String: " ++ value ++ "\\")

theorem consumeStringEscapeSequence_ok_state {value : String} {s : LexState}
    {v' : String} {s' : LexState}
    (h : consumeStringEscapeSequence value s = .ok (v', s')) :
    s'.line = s.line ∧ s.column ≤ s'.column ∧ s'.input.length < s.input.length := by
  unfold consumeStringEscapeSequence at h
  cases hr : readRune s with
  | mk o s₁ =>
    cases o with
    | none => rw [hr] at h; simp at h
    | some r =>
      rw [hr] at h
      have hlen := readRune_some_length hr
      have hline : s₁.line = s.line := by
        unfold readRune incrementColumn at hr
        cases hi : s.input <;> simp [hi] at hr <;> rw [← hr.2]
      have hcol : s.column + 1 = s₁.column := by
        unfold readRune incrementColumn at hr
        cases hi : s.input <;> simp [hi] at hr <;> rw [← hr.2]
      by_cases hu : r = 'u'
      · simp only [hu, if_true] at h
        cases hcm : consume 4 isHexidecimalCharacter s₁ with
        | mk p s₂ =>
          obtain ⟨str, e⟩ := p
          rw [hcm] at h
          cases e with
          | none =>
            simp at h
            obtain ⟨h1, h2, h3⟩ := consume_state 4 isHexidecimalCharacter s₁
            rw [hcm] at h1 h2 h3
            dsimp only at h1 h2 h3
            rw [← h.2]
            exact ⟨by omega, by omega, by omega⟩
          | some e' => simp at h
      · simp only [hu, if_false] at h
        cases he : escapedCharacterToRune r with
        | none => rw [he] at h; simp at h
        | some ec =>
          rw [he] at h
          simp at h
          rw [← h.2]
          exact ⟨hline, by omega, hlen⟩

/-- The loop body of `lexer.consumeString`, with fuel; `value` is the
accumulating `bytes.Buffer` contents.  Every loop iteration that recurses
has consumed at least two runes (the backslash and the escape), so the fuel
chosen in `consumeStringLoop` never runs out (`consumeStringLoopGo_fuel`)
and the zero case is unreachable. -/
def consumeStringLoopGo : Nat → String → LexState → Except String (String × LexState)
  | 0, value, _ => .error ("invalid String: " ++ value)
  | fuel + 1, value, s =>
    match consumeAll isStringCharacter s with
    | (str, s₁) =>
      match readRune s₁ with
      | (some r, s₂) =>
        if r = '"' then .ok (value ++ str, s₂)
        else if r = '\\' then
          match consumeStringEscapeSequence (value ++ str) s₂ with
          | .ok (value₂, s₃) => consumeStringLoopGo fuel value₂ s₃
          | .error e => .error e
        else .error ("invalid String: " ++ (value ++ str) ++ r.toString)
      | (none, _) => .error ("invalid String: " ++ (value ++ str))

/-- The loop of `lexer.consumeString`. -/
def consumeStringLoop (value : String) (s : LexState) : Except String (String × LexState) :=
  consumeStringLoopGo (s.input.length + 1) value s

/-- `lexer.consumeString` (the starting quote has already been read). -/
def consumeString (s : LexState) : Except String (String × LexState) :=
  consumeStringLoop "" s

/-- The exponent-part stage of `lexer.consumeNumber` (the Go function is one
sequential body; its fractional and exponent stages are split out here so the
early `return` in the integer-part stage can be modelled directly). -/
def consumeNumberExponent (value : String) (tokenType : TokenType) (s : LexState) :
    Except String (String × TokenType × LexState) :=
  match peek s with
  | (some nextRune, s₁) =>
    if nextRune = 'e' ∨ nextRune = 'E' then
      let s₂ := (readRune s₁).2
      let value₁ := value ++ nextRune.toString
      match peek s₂ with
      | (some nextRune₂, s₃) =>
        let signTaken : String × LexState :=
          if nextRune₂ = '+' ∨ nextRune₂ = '-' then
            (value₁ ++ nextRune₂.toString, (readRune s₃).2)
          else (value₁, s₃)
        match consumeAll isIntegerCharacter signTaken.2 with
        | (exponentPart, s₄) =>
          if exponentPart = "" then .error ("invalid Float: " ++ signTaken.1)
          else .ok (signTaken.1 ++ exponentPart, .Float, s₄)
      | (none, _) => .error ("invalid Float: " ++ value₁)
    else .ok (value, tokenType, s₁)
  | (none, s₁) => .ok (value, tokenType, s₁)

/-- The fractional-part stage of `lexer.consumeNumber`. -/
def consumeNumberFraction (value : String) (s : LexState) :
    Except String (String × TokenType × LexState) :=
  match peek s with
  | (some nextRune, s₁) =>
    if nextRune = '.' then
      let s₂ := (readRune s₁).2
      match consumeAll isIntegerCharacter s₂ with
      | (fractionalPart, s₃) =>
        if fractionalPart = "" then
          .error ("invalid Float: " ++ (value ++ ".") ++ fractionalPart)
        else
          consumeNumberExponent (value ++ "." ++ fractionalPart) .Float s₃
    else consumeNumberExponent value .Integer s₁
  | (none, s₁) => consumeNumberExponent value .Integer s₁

/-- `lexer.consumeNumber`: the integer-part stage, with the Go early
returns: a `-` followed by nothing is an error, a `-` followed by a
non-digit returns the bare `-` as an Integer token at once (the peek error
was nil, so `return value.String(), tokenType, err` returns no error). -/
def consumeNumber (first : Char) (s : LexState) : Except String (String × TokenType × LexState) :=
  match peek s with
  | (some nextRune, s₁) =>
    if isIntegerCharacter nextRune then
      if first = '-' ∧ nextRune = '0' then
        consumeNumberFraction (first.toString ++ nextRune.toString) (readRune s₁).2
      else
        match consumeAll isIntegerCharacter s₁ with
        | (str, s₂) => consumeNumberFraction (first.toString ++ str) s₂
    else if first = '-' then
      .ok (first.toString, .Integer, s₁)
    else
      consumeNumberFraction first.toString s₁
  | (none, s₁) =>
    if first = '-' then .error "invalid Integer: -"
    else consumeNumberFraction first.toString s₁

/-- The body of `lexer.nextToken`'s switch on the first rune `r`: returns the
token type, literal value and state after the switch (or the lexical
error). -/
def nextTokenBranch (r : Char) (s₁ : LexState) : Except String (TokenType × String × LexState) :=
  if r = '{' then .ok (.OpenBrace, "", s₁)
  else if r = '}' then .ok (.ClosedBrace, "", s₁)
  else if r = '(' then .ok (.OpenParen, "", s₁)
  else if r = ')' then .ok (.ClosedParen, "", s₁)
  else if r = '[' then .ok (.OpenBracket, "", s₁)
  else if r = ']' then .ok (.ClosedBracket, "", s₁)
  else if r = '=' then .ok (.Equals, "", s₁)
  else if r = '!' then .ok (.Exclamation, "", s₁)
  else if r = '$' then .ok (.Dollar, "", s₁)
  else if r = ':' then .ok (.Colon, "", s₁)
  else if r = '@' then .ok (.At, "", s₁)
  else if r = '|' then .ok (.VerticalBar, "", s₁)
  else if r = '.' then
    match consume 2 isPeriod s₁ with
    | ((_, none), s₂) => .ok (.Spread, "", s₂)
    | ((str, some _), _) => .error ("expected ... but found " ++ r.toString ++ str)
  else if r = '\u000D' then
    match peek s₁ with
    | (some nextr, s₂) =>
      if nextr = '\u000A' then .ok (.LineTerminator, "", (readRune s₂).2)
      else .ok (.LineTerminator, "", s₂)
    | (none, s₂) => .ok (.LineTerminator, "", s₂)
  else if r = '\u000A' then .ok (.LineTerminator, "", s₁)
  else if r = ',' ∨ r = '\u0009' ∨ r = ' ' then .ok (.Whitespace, "", s₁)
  else if r = '_' ∨ ('a' ≤ r ∧ r ≤ 'z') ∨ ('A' ≤ r ∧ r ≤ 'Z') then
    match consumeAll isNameCharacter s₁ with
    | (str, s₂) => .ok (.Name, r.toString ++ str, s₂)
  else if r = '"' then
    match consumeString s₁ with
    | .ok (value, s₂) => .ok (.String, value, s₂)
    | .error e => .error e
  else if r = '-' ∨ ('0' ≤ r ∧ r ≤ '9') then
    match consumeNumber r s₁ with
    | .ok (value, t, s₂) => .ok (t, value, s₂)
    | .error e => .error e
  else if r = '#' then
    match consumeAll IsCommentCharacter s₁ with
    | (_, s₂) => .ok (.Comment, "", s₂)
  else if r = '\uFEFF' then .ok (.UnicodeBOM, "", s₁)
  else .error ("invalid character: " ++ r.toString)

/-- `lexer.nextToken`: capture `{Line, ColumnStart}` on entry, dispatch on
the first rune, set `ColumnEnd` from the column after the switch, and run
`incrementLine` after a LineTerminator token. -/
def nextToken (s : LexState) : Except String (Token × LexState) :=
  match readRune s with
  | (none, s') =>
    .ok ({ type := .EOF, Value := "", Line := s.line, ColumnStart := s.column,
           ColumnEnd := s.column }, s')
  | (some r, s₁) =>
    match nextTokenBranch r s₁ with
    | .error e => .error e
    | .ok (tt, v, s₂) =>
      let token : Token :=
        { type := tt, Value := v, Line := s.line, ColumnStart := s.column,
          ColumnEnd := s₂.column - 1 }
      if tt = .LineTerminator then .ok (token, incrementLine s₂)
      else .ok (token, s₂)

/-- The loop of `Tokenize`, with explicit fuel (`none` = fuel ran out; the
Go loop terminates because every non-EOF token consumes input). On a lexer
error `Tokenize` returns the tokens collected so far together with the
error. -/
def tokenizeLoop (ignoreWhitespace : Bool) : Nat → LexState → Option (List Token × Option String)
  | 0, _ => none
  | Nat.succ fuel, s =>
    match nextToken s with
    | .error e => some ([], some e)
    | .ok (t, s') =>
      let acc : List Token :=
        if ignoreWhitespace = true ∧ (t.type = .Whitespace ∨ t.type = .LineTerminator)
        then [] else [t]
      if t.type = .EOF then some (acc, none)
      else
        match tokenizeLoop ignoreWhitespace fuel s' with
        | none => none
        | some (ts, e) => some (acc ++ ts, e)

/-- `Tokenize(r, ignoreWhitespace)` from the position-tracking lexer
revision, with fuel. -/
def Tokenize (fuel : Nat) (src : String) (ignoreWhitespace : Bool) :
    Option (List Token × Option String) :=
  tokenizeLoop ignoreWhitespace fuel (initLexState src)

/-!
## The `schema` package

`schema.Type` is a recursive struct with a `*Type` element pointer; the
embedding is the corresponding inductive with an `Option` sub-type (values
built by the `Describe*` helpers are finite trees).  Go maps are embedded as
association lists with insert-at-front / first-match-wins lookup, which is
the overwrite semantics of a Go map.
-/

/-- `schema.Type`: `{Name, NonNull, List, SubType}` (`SubType` is the
element type of a list type). -/
inductive SchemaType where
  | mk (Name : String) (NonNull : Bool) (List : Bool) (SubType : Option SchemaType)

/-- Structural equality of type references: what `reflect.DeepEqual` computes
on two `schema.Type` values (pointer targets compared by value). -/
def SchemaType.beq : SchemaType → SchemaType → Bool
  | .mk n1 nn1 l1 st1, .mk n2 nn2 l2 st2 =>
    n1 = n2 && nn1 = nn2 && l1 = l2 &&
      (match st1, st2 with
       | none, none => true
       | some a, some b => SchemaType.beq a b
       | _, _ => false)

def SchemaType.Name : SchemaType → String
  | .mk n _ _ _ => n

def SchemaType.NonNull : SchemaType → Bool
  | .mk _ nn _ _ => nn

def SchemaType.List : SchemaType → Bool
  | .mk _ _ l _ => l

def SchemaType.SubType : SchemaType → Option SchemaType
  | .mk _ _ _ st => st

/-- `DescribeType`. -/
def DescribeType (name : String) : SchemaType := .mk name false false none

/-- `DescribeNonNullType`. -/
def DescribeNonNullType (name : String) : SchemaType := .mk name true false none

/-- `DescribeListType`. -/
def DescribeListType (subType : SchemaType) : SchemaType := .mk "" false true (some subType)

/-- `DescribeNonNullListType`. -/
def DescribeNonNullListType (subType : SchemaType) : SchemaType := .mk "" true true (some subType)

/-- `StringType`. -/
def StringType : SchemaType := DescribeType "String"

/-- `NonNullStringType`. -/
def NonNullStringType : SchemaType := DescribeNonNullType "String"

/-- `IntType`. -/
def IntType : SchemaType := DescribeType "Int"

/-- `NonNullBooleanType`. -/
def NonNullBooleanType : SchemaType := DescribeNonNullType "Boolean"

/-- `schema.TypeKind`. -/
inductive TypeKind where
  | SCALAR
  | OBJECT
  | INTERFACE
  | UNION
  | ENUM
  | INPUT_OBJECT
  | LIST
deriving DecidableEq, Repr

/-- `schema.Argument` (`Default interface{}` is carried opaquely; no claim
reads it). -/
structure Argument where
  Name : String
  type : SchemaType
  Default : Option String

/-- `schema.Field`. -/
structure Field where
  Name : String
  Description : String
  type : SchemaType
  Arguments : List (String × Argument)

/-- `schema.Scalar`. -/
structure Scalar where
  Name : String
  Description : String

/-- `schema.Enum`. -/
structure Enum where
  Name : String
  Values : List String
  Description : String

/-- `schema.Input`. -/
structure Input where
  Name : String
  Description : String
  Fields : List (String × Field)

/-- `schema.Interface`. -/
structure Interface where
  Name : String
  Description : String
  Fields : List (String × Field)

/-- `schema.Union`. -/
structure Union where
  Name : String
  Description : String
  Types : List String

/-- `schema.Object`. -/
structure Object where
  Name : String
  Implements : List String
  Description : String
  Fields : List (String × Field)

/-- The `schema.Declaration` interface as a closed sum of the six variants. -/
inductive Declaration where
  | scalar (s : Scalar)
  | enum (e : Enum)
  | input (i : Input)
  | intrface (i : Interface)
  | object (o : Object)
  | union (u : Union)

/-- `Declaration.name()`. -/
def Declaration.name : Declaration → String
  | .scalar s => s.Name
  | .enum e => e.Name
  | .input i => i.Name
  | .intrface i => i.Name
  | .object o => o.Name
  | .union u => u.Name

/-- `Declaration.typeKind()`. -/
def Declaration.typeKind : Declaration → TypeKind
  | .scalar _ => .SCALAR
  | .enum _ => .ENUM
  | .input _ => .INPUT_OBJECT
  | .intrface _ => .INTERFACE
  | .object _ => .OBJECT
  | .union _ => .UNION

/-- `schema.Schema`: the six name-keyed collections. -/
structure Schema where
  enums : List (String × Enum)
  inputs : List (String × Input)
  interfaces : List (String × Interface)
  objects : List (String × Object)
  scalars : List (String × Scalar)
  unions : List (String × Union)

/-- `newSchema()`. -/
def newSchema : Schema := ⟨[], [], [], [], [], []⟩

/-- A Go runtime panic reachable from the embedded code. -/
inductive GoPanic where
  | nilPointerDereference
  | nilMapAssignment

/-- The name lookup cascade of `Schema.getDeclaration` for a non-list type:
scalars, enums, objects, interfaces, unions, inputs, in that order. -/
def lookupDeclaration (schema : Schema) (name : String) : Option Declaration :=
  match List.lookup name schema.scalars with
  | some scalar => some (.scalar scalar)
  | none =>
    match List.lookup name schema.enums with
    | some enum => some (.enum enum)
    | none =>
      match List.lookup name schema.objects with
      | some object => some (.object object)
      | none =>
        match List.lookup name schema.interfaces with
        | some intrface => some (.intrface intrface)
        | none =>
          match List.lookup name schema.unions with
          | some union => some (.union union)
          | none =>
            match List.lookup name schema.inputs with
            | some input => some (.input input)
            | none => none

/-- `Schema.getDeclaration`: a list type recurses on `*t.SubType` (a nil
`SubType` is the Go nil-pointer dereference); a non-list type is looked up by
name in the six collections.  The exported `GetDeclaration` used by the
validator is the same function. -/
def Schema.getDeclaration (schema : Schema) : SchemaType → Except GoPanic (Option Declaration)
  | .mk name nonNull list subType =>
    if list then
      match subType with
      | none => .error .nilPointerDereference
      | some t => Schema.getDeclaration schema t
    else
      .ok (lookupDeclaration schema name)

/-- Modelled from the spec: `Schema.getObject` (not under `src/`; the spec
says the Schema owns six name-keyed collections, so the getter is the lookup
in the objects collection, its error return modelled as `none`). -/
def Schema.getObject (schema : Schema) (name : String) : Option Object :=
  List.lookup name schema.objects

/-- Modelled from the spec: `Schema.getInterface` (not under `src/`), the
lookup in the interfaces collection. -/
def Schema.getInterface (schema : Schema) (name : String) : Option Interface :=
  List.lookup name schema.interfaces

/-- Modelled from the spec: `Schema.getUnion` (not under `src/`), the lookup
in the unions collection. -/
def Schema.getUnion (schema : Schema) (name : String) : Option Union :=
  List.lookup name schema.unions

/-- `typeCheck`: `reflect.DeepEqual` on two type references (pointer targets
are compared by value, so this is structural equality of the trees). -/
def typeCheck (t1 t2 : SchemaType) : Bool := SchemaType.beq t1 t2

/-- `Builder.covariantTypeCheck` from the schema builder. -/
def covariantTypeCheck (schema : Schema) : SchemaType → SchemaType → Bool
  | t1@(.mk n1 nn1 l1 st1), t2@(.mk n2 nn2 l2 st2) =>
    if typeCheck t1 t2 then true
    else if nn1 ≠ nn2 then false
    else if l1 then
      if ¬ l2 then false
      else
        match st1, st2 with
        | some s1, some s2 => covariantTypeCheck schema s1 s2
        | _, _ => false
    else
      match schema.getObject n1 with
      | some object =>
        (match schema.getInterface n2 with
         | some intrface => object.Implements.contains intrface.Name
         | none => false) ||
        (match schema.getUnion n2 with
         | some union => union.Types.contains object.Name
         | none => false)
      | none => false

/-- `Fields(...)`: build the name-keyed field map. -/
def Fields (fields : List Field) : List (String × Field) :=
  fields.foldl (fun m f => (f.Name, f) :: m) []

/-- `Arguments(...)`. -/
def Arguments (arguments : List Argument) : List (String × Argument) :=
  arguments.foldl (fun m a => (a.Name, a) :: m) []

/-- `Values(...)`. -/
def Values (values : List String) : List String := values

/-- `Types(...)`. -/
def Types (types : List String) : List String := types

/-- `Interfaces(...)`. -/
def Interfaces (interfaces : List String) : List String := interfaces

/-!
## The schema `Builder` (name declaration)

From `schema/builder.go` (`NewBuilder` starts with no declared names) and the
later revision's `declareTypeName`; each `Declare` dispatches on the variant,
runs `declareTypeName`, and panics with the validation error on failure
(modelled as `Except.error`, which also gives the stop-at-first-error
semantics). -/

/-- The structured validation errors `declareTypeName` can produce; the Go
message texts are recovered by `buildErrorMessage`. -/
inductive BuildError where
  | noName
  | invalidName (name : String)
  | duplicateName (name : String)
deriving DecidableEq, Repr

/-- The `fmt.Errorf` texts of `validateName` / `declareTypeName`. -/
def buildErrorMessage : BuildError → String
  | .noName => "declared without Name defined"
  | .invalidName name =>
    "declared with an invalid Name '" ++ name ++
      "'. A Name must only consist of ASCII letters, numbers, and underscores"
  | .duplicateName name =>
    "declared with name '" ++ name ++
      "' but another type with that name has already been declared"

/-- The compiled `^[_a-zA-Z0-9]+$` matcher. -/
def validNameMatcher (name : String) : Bool :=
  name.length > 0 &&
    name.data.all (fun c =>
      c = '_' || ('a' ≤ c && c ≤ 'z') || ('A' ≤ c && c ≤ 'Z') || ('0' ≤ c && c ≤ '9'))

/-- `Builder.validateName`. -/
def validateName (name : String) : Except BuildError Unit :=
  if name = "" then .error .noName
  else if ¬ validNameMatcher name then .error (.invalidName name)
  else .ok ()

/-- `Builder.declareTypeName` on the set of already declared names. -/
def declareTypeName (declared : List String) (name : String) : Except BuildError (List String) :=
  match validateName name with
  | .error e => .error e
  | .ok _ =>
    if declared.contains name then .error (.duplicateName name)
    else .ok (name :: declared)

/-- `schema.Builder`. -/
structure Builder where
  schema : Schema
  declaredTypeNames : List String

/-- `NewBuilder()`. -/
def NewBuilder : Builder := ⟨newSchema, []⟩

/-- `Builder.Declare`: dispatch on the declaration variant; each variant
method runs `declareTypeName` (panicking with the validation error on
failure) and stores the declaration in its collection. -/
def Builder.declare (builder : Builder) (declaration : Declaration) : Except BuildError Builder :=
  match declareTypeName builder.declaredTypeNames declaration.name with
  | .error e => .error e
  | .ok names =>
    let schema :=
      match declaration with
      | .enum e => { builder.schema with enums := (e.Name, e) :: builder.schema.enums }
      | .input i => { builder.schema with inputs := (i.Name, i) :: builder.schema.inputs }
      | .intrface i => { builder.schema with interfaces := (i.Name, i) :: builder.schema.interfaces }
      | .object o => { builder.schema with objects := (o.Name, o) :: builder.schema.objects }
      | .scalar s => { builder.schema with scalars := (s.Name, s) :: builder.schema.scalars }
      | .union u => { builder.schema with unions := (u.Name, u) :: builder.schema.unions }
    .ok { schema := schema, declaredTypeNames := names }

/-- A chain of `Declare` calls, stopping at the first validation error (the
Go code panics there). -/
def declareAll : List Declaration → Builder → Except BuildError Builder
  | [], builder => .ok builder
  | d :: rest, builder =>
    match builder.declare d with
    | .error e => .error e
    | .ok builder' => declareAll rest builder'

/-- All type names held in the six collections of a Schema. -/
def Schema.allNames (schema : Schema) : List String :=
  schema.enums.map Prod.fst ++ schema.inputs.map Prod.fst ++
    schema.interfaces.map Prod.fst ++ schema.objects.map Prod.fst ++
    schema.scalars.map Prod.fst ++ schema.unions.map Prod.fst

/-!
## The document AST and validator

From the `Document`/`SelectionSet` structures and `validator.go`.  The AST
carries the fields the validator reads (names, fragment target types and the
nested selection structure); argument and directive payloads are never read
by any modelled path.  The validator's two map fields are nil maps in
`validate` (the struct literal sets only `schema` and `document`): reading a
nil map yields "absent", assigning into one is a runtime panic. -/

mutual

inductive DocField where
  | mk (Name : String) (Alias : String) (SelectionSet : DocSelectionSet)

inductive DocInlineFragment where
  | mk (type : String) (SelectionSet : DocSelectionSet)

inductive DocSelectionSet where
  | mk (Fields : List DocField) (InlineFragments : List DocInlineFragment)
       (FragmentSpreads : List String)

end

def DocField.Name : DocField → String
  | .mk n _ _ => n

def DocInlineFragment.type : DocInlineFragment → String
  | .mk t _ => t

def DocSelectionSet.Fields : DocSelectionSet → List DocField
  | .mk f _ _ => f

def DocSelectionSet.InlineFragments : DocSelectionSet → List DocInlineFragment
  | .mk _ i _ => i

/-- `Fragment` of the document AST. -/
structure DocFragment where
  Name : String
  type : String
  SelectionSet : DocSelectionSet

/-- `Operation` of the document AST. -/
structure DocOperation where
  type : String
  Name : String
  SelectionSet : DocSelectionSet

/-- `Document`. -/
structure DocDocument where
  Operations : List DocOperation
  Fragments : List DocFragment

/-- The validation errors `validator.error` records, structured (the Go code
formats them as strings; only their number and kind matter to the claims). -/
inductive ValidationError where
  | loneAnonymousOperation
  | duplicateOperationName (name : String)
  | duplicateFragmentName (name : String)
  | fragmentTypeDoesNotExist (type? : String)
  | fragmentOnNonCompositeType
  | inlineFragmentTypeDoesNotExist (type? : String)
  | cannotSelectNonMetaFieldFromUnion
deriving DecidableEq, Repr

/-- The mutable `validator` value: `errors` plus the two name sets, which
start out as nil maps (`none`). -/
structure ValidatorState where
  errors : List ValidationError
  operationNames : Option (List String)
  fragmentNames : Option (List String)

/-- Reading `m[k]` from a possibly-nil Go map: a nil map contains nothing. -/
def nilMapContains (m : Option (List String)) (k : String) : Bool :=
  match m with
  | none => false
  | some l => l.contains k

/-- Writing `m[k] = v` into a possibly-nil Go map: assignment into a nil map
panics. -/
def nilMapAssign (m : Option (List String)) (k : String) : Except GoPanic (List String) :=
  match m with
  | none => .error .nilMapAssignment
  | some l => .ok (k :: l)

/-- `validator.validateOperation`. -/
def validateOperation (document : DocDocument) (v : ValidatorState) (operation : DocOperation) :
    Except GoPanic ValidatorState :=
  let v₁ :=
    if operation.Name = "" ∧ document.Operations.length > 1 then
      { v with errors := v.errors ++ [.loneAnonymousOperation] }
    else v
  if nilMapContains v₁.operationNames operation.Name then
    .ok { v₁ with errors := v₁.errors ++ [.duplicateOperationName operation.Name] }
  else
    match nilMapAssign v₁.operationNames operation.Name with
    | .error p => .error p
    | .ok m => .ok { v₁ with operationNames := some m }

/-- `validator.validateFragment` (the name-uniqueness check reads
`operationNames`, as the Go code does). -/
def validateFragment (schema : Schema) (v : ValidatorState) (fragment : DocFragment) :
    Except GoPanic ValidatorState :=
  let step1 : Except GoPanic ValidatorState :=
    if nilMapContains v.operationNames fragment.Name then
      .ok { v with errors := v.errors ++ [.duplicateFragmentName fragment.Name] }
    else
      match nilMapAssign v.fragmentNames fragment.Name with
      | .error p => .error p
      | .ok m => .ok { v with fragmentNames := some m }
  match step1 with
  | .error p => .error p
  | .ok v₁ =>
    match schema.getDeclaration (DescribeType fragment.type) with
    | .error p => .error p
    | .ok none => .ok { v₁ with errors := v₁.errors ++ [.fragmentTypeDoesNotExist fragment.type] }
    | .ok (some declaration) =>
      match declaration.typeKind with
      | .INTERFACE => .ok v₁
      | .OBJECT => .ok v₁
      | .UNION => .ok v₁
      | _ => .ok { v₁ with errors := v₁.errors ++ [.fragmentOnNonCompositeType] }

/-- `validate(schema, document)` from `validator.go`: the struct literal
initializes only `schema` and `document`, so both name maps are nil; the Go
function returns nothing — a normal return is modelled as `.ok` carrying the
accumulated (and discarded) `v.errors`. -/
def validate (schema : Schema) (document : DocDocument) : Except GoPanic (List ValidationError) :=
  let v : ValidatorState := { errors := [], operationNames := none, fragmentNames := none }
  match document.Operations.foldlM (validateOperation document) v with
  | .error p => .error p
  | .ok v₁ =>
    match document.Fragments.foldlM (validateFragment schema) v₁ with
    | .error p => .error p
    | .ok v₂ => .ok v₂.errors

/-- `validator.validateInlineFragment`: only the existence of the target
type is checked (nested fragment validation is a TODO in the source). -/
def validateInlineFragment (schema : Schema) (errors : List ValidationError)
    (inlineFragment : DocInlineFragment) : Except GoPanic (List ValidationError) :=
  match schema.getDeclaration (DescribeType inlineFragment.type) with
  | .error p => .error p
  | .ok none => .ok (errors ++ [.inlineFragmentTypeDoesNotExist inlineFragment.type])
  | .ok (some _) => .ok errors

/-- `validator.validateUnionSelectionSet`: every directly selected field
whose name is not `__typename` is one error; inline fragments are then
validated for target-type existence. -/
def validateUnionSelectionSet (schema : Schema) (errors : List ValidationError)
    (union : Union) (selectionSet : DocSelectionSet) : Except GoPanic (List ValidationError) :=
  let errors₁ :=
    selectionSet.Fields.foldl
      (fun es selectedField =>
        if selectedField.Name ≠ "__typename" then es ++ [.cannotSelectNonMetaFieldFromUnion]
        else es)
      errors
  selectionSet.InlineFragments.foldlM (validateInlineFragment schema) errors₁

/-!
## The parser (`parser.go`)

`Parser` holds the token slice and an explicit cursor.  `unexpected` panics
with `fmt.Errorf("Expected %s but found %s", strings.Join(expected, " or "),
actual)`; the panic is recovered in `parse` and returned as the error —
modelled as `Except.error` throughout (which is also the abort-at-first-error
semantics).  Indexing `tokens[position]` out of range is the Go runtime
panic, a distinct error constructor.  The two loops and the type-reference
recursion take fuel. -/

structure Parser where
  tokens : List Token
  position : Nat

inductive ParseError where
  | unexpected (expected : List String) (actual : String)
  | indexOutOfRange
  | outOfFuel
deriving DecidableEq, Repr

/-- The error text `unexpected` builds. -/
def parseErrorMessage : ParseError → String
  | .unexpected expected actual =>
    "Expected " ++ String.intercalate " or " expected ++ " but found " ++ actual
  | .indexOutOfRange => "runtime error: index out of range"
  | .outOfFuel => "out of fuel"

/-- `Parser.peek`: `p.tokens[p.position]`. -/
def Parser.peek (p : Parser) : Except ParseError Token :=
  match p.tokens.get? p.position with
  | some token => .ok token
  | none => .error .indexOutOfRange

/-- `Parser.take`: read the current token; advance unless already at the
last token. -/
def Parser.take (p : Parser) : Except ParseError (Token × Parser) :=
  match p.tokens.get? p.position with
  | none => .error .indexOutOfRange
  | some token =>
    if p.position ≠ p.tokens.length - 1 then
      .ok (token, { p with position := p.position + 1 })
    else
      .ok (token, p)

/-- `Parser.expect`. -/
def Parser.expect (p : Parser) (t : TokenType) : Except ParseError (Token × Parser) := do
  let token ← p.peek
  if token.type ≠ t then
    throw (.unexpected [tokenTypeString t] (tokenTypeString token.type))
  else
    let (_, p') ← p.take
    pure (token, p')

/-- `Parser.accept`. -/
def Parser.accept (p : Parser) (t : TokenType) (values : List String) :
    Except ParseError (Token × Parser) := do
  let token ← p.peek
  if token.type = t then
    if values.contains token.Value then
      let (_, p') ← p.take
      pure (token, p')
    else throw (.unexpected values token.Value)
  else throw (.unexpected values (tokenTypeString token.type))

/-- `Parser.optional`: `(InvalidToken, false)` when the current token does
not match. -/
def Parser.optional (p : Parser) (t : TokenType) : Except ParseError ((Token × Bool) × Parser) := do
  let token ← p.peek
  if token.type = t then
    let (_, p') ← p.take
    pure ((token, true), p')
  else pure ((InvalidToken, false), p)

/-- The parser package's own `Type` struct (`{Type string, NonNull, List,
SubType *Type}`); the Go field named `Type` is `typeName` here. -/
inductive PType where
  | mk (typeName : String) (NonNull : Bool) (List : Bool) (SubType : Option PType)

def PType.setNonNull : PType → Bool → PType
  | .mk n _ l st, nn => .mk n nn l st

/-- `Variable` (never actually constructed by the parser: `parseVariables`
parses definitions but appends nothing to its named return). -/
structure PVariable where
  Name : String

/-- `Directives{}` (the parser returns the zero value without consuming). -/
structure PDirectives where

/-- `SelectionSet{}`: `parseSelectionSet` only accepts `{` `}` and returns
the zero value. -/
structure PSelectionSet where

/-- `Fragment{}`: `parseFragment` consumes nothing and returns the zero
value. -/
structure PFragment where

/-- The `Operation` value `parseOperation` builds. -/
structure POperation where
  operationType : String
  operationName : String
  varDefs : List PVariable
  directives : PDirectives
  selectionSet : PSelectionSet

/-- `Document`. -/
structure PDocument where
  Operations : List POperation
  Fragments : List PFragment

/-- `Parser.parseSelectionSet`: `expect {` then `expect }`. -/
def parseSelectionSet (p : Parser) : Except ParseError (PSelectionSet × Parser) := do
  let (_, p₁) ← p.expect .OpenBrace
  let (_, p₂) ← p₁.expect .ClosedBrace
  pure (⟨⟩, p₂)

mutual

/-- `Parser.parseType`: `_parseType` then an optional `!`. -/
def parseType : Nat → Parser → Except ParseError (PType × Parser)
  | 0, _ => .error .outOfFuel
  | Nat.succ fuel, p => do
    let (t, p₁) ← parseTypeInner fuel p
    let ((_, nonNull), p₂) ← p₁.optional .Exclamation
    pure (t.setNonNull nonNull, p₂)

/-- `Parser._parseType`: `[` Type `]` for a list type, else a bare Name. -/
def parseTypeInner : Nat → Parser → Except ParseError (PType × Parser)
  | 0, _ => .error .outOfFuel
  | Nat.succ fuel, p => do
    let token ← p.peek
    if token.type = .OpenBracket then do
      let (_, p₁) ← p.expect .OpenBracket
      let (subType, p₂) ← parseType fuel p₁
      let (_, p₃) ← p₂.expect .ClosedBracket
      pure (.mk "" false true (some subType), p₃)
    else do
      let (nameToken, p₁) ← p.expect .Name
      pure (.mk nameToken.Value false false none, p₁)

end

/-- The `for` loop of `Parser.parseVariables`. -/
def parseVariablesLoop : Nat → Parser → Except ParseError Parser
  | 0, _ => .error .outOfFuel
  | Nat.succ fuel, p => do
    let token ← p.peek
    if token.type ≠ .Dollar then pure p
    else do
      let (_, p₁) ← p.expect .Dollar
      let (_, p₂) ← p₁.expect .Name
      let (_, p₃) ← p₂.expect .Colon
      let (_, p₄) ← parseType fuel p₃
      let ((_, defaultGiven), p₅) ← p₄.optional .Equals
      if defaultGiven then do
        let _ ← p₅.peek
        parseVariablesLoop fuel p₅
      else parseVariablesLoop fuel p₅

/-- `Parser.parseVariables`: mandatory parens around zero or more variable
definitions; the named return `variables` is never appended to, so the
result list is always empty. -/
def parseVariables (fuel : Nat) (p : Parser) : Except ParseError (List PVariable × Parser) := do
  let (_, p₁) ← p.expect .OpenParen
  let p₂ ← parseVariablesLoop fuel p₁
  let (_, p₃) ← p₂.expect .ClosedParen
  pure ([], p₃)

/-- `Parser.parseDirectives`: returns `Directives{}` without consuming. -/
def parseDirectives (p : Parser) : PDirectives × Parser := (⟨⟩, p)

/-- `Parser.parseFragment`: returns `Fragment{}` without consuming. -/
def parseFragment (p : Parser) : PFragment × Parser := (⟨⟩, p)

/-- `Parser.parseOperation`. -/
def parseOperation (fuel : Nat) (operationType : String) (p : Parser) :
    Except ParseError (POperation × Parser) := do
  let ((operationName, _), p₁) ← p.optional .Name
  let (varDefs, p₂) ← parseVariables fuel p₁
  let (directives, p₃) := parseDirectives p₂
  let (selectionSet, p₄) ← parseSelectionSet p₃
  pure ({ operationType := operationType, operationName := operationName.Value,
          varDefs := varDefs, directives := directives, selectionSet := selectionSet }, p₄)

/-- The definition loop of `Parser.parseDocument`, collecting into the local
`operations` and `fragments` slices. -/
def parseDocumentLoop : Nat → Parser → List POperation → List PFragment →
    Except ParseError ((List POperation × List PFragment) × Parser)
  | 0, _, _, _ => .error .outOfFuel
  | Nat.succ fuel, p, operations, fragments => do
    let token ← p.peek
    if token.type = .EOF then pure ((operations, fragments), p)
    else do
      let (definitionToken, p₁) ← p.accept .Name ["query", "mutation", "fragment"]
      if definitionToken.Value = "fragment" then
        let (fragment, p₂) := parseFragment p₁
        parseDocumentLoop fuel p₂ operations (fragments ++ [fragment])
      else do
        let (operation, p₂) ← parseOperation fuel definitionToken.Value p₁
        parseDocumentLoop fuel p₂ (operations ++ [operation]) fragments

/-- `Parser.parseDocument`: short-hand `{...}` documents go through one
selection set then EOF; otherwise the definition loop runs.  In both cases
the Go function ends with `return Document{}` — the parsed operations and
fragments are discarded and the returned document is empty. -/
def parseDocument (fuel : Nat) (p : Parser) : Except ParseError (PDocument × Parser) := do
  let token ← p.peek
  if token.type = .OpenBrace then do
    let (_, p₁) ← parseSelectionSet p
    let (_, p₂) ← p₁.expect .EOF
    pure (⟨[], []⟩, p₂)
  else do
    let (_, p') ← parseDocumentLoop fuel p [] []
    pure (⟨[], []⟩, p')

/-- `Parser.parse`: runs `parseDocument`, recovers any panic as the returned
error, and returns nothing else (the document is discarded). -/
def parse (fuel : Nat) (p : Parser) : Except ParseError Unit := do
  let _ ← parseDocument fuel p
  pure ()

/-!
## Theorems
-/

/-- The precondition of C10: at every list level the element `SubType` is
present. -/
def listOk : SchemaType → Bool
  | .mk _ _ l st =>
    if l then
      match st with
      | some t => listOk t
      | none => false
    else true

/-- The fully unwrapped base element name of a type reference. -/
def baseName : SchemaType → String
  | .mk n _ l st =>
    if l then
      match st with
      | some t => baseName t
      | none => ""
    else n

theorem getDeclaration_of_listOk (schema : Schema) :
    ∀ t : SchemaType, listOk t = true →
      Schema.getDeclaration schema t = .ok (lookupDeclaration schema (baseName t))
  | .mk n nn l st, h => by
    cases st with
    | none =>
      cases l with
      | false => simp [Schema.getDeclaration, baseName]
      | true => simp [listOk] at h
    | some u =>
      cases l with
      | false => simp [Schema.getDeclaration, baseName]
      | true =>
        have hu : listOk u = true := by simpa [listOk] using h
        have ih := getDeclaration_of_listOk schema u hu
        simpa [Schema.getDeclaration, baseName] using ih

theorem lookupDeclaration_none_iff (schema : Schema) (name : String) :
    lookupDeclaration schema name = none ↔
      (List.lookup name schema.scalars = none ∧
       List.lookup name schema.enums = none ∧
       List.lookup name schema.objects = none ∧
       List.lookup name schema.interfaces = none ∧
       List.lookup name schema.unions = none ∧
       List.lookup name schema.inputs = none) := by
  unfold lookupDeclaration
  cases List.lookup name schema.scalars <;>
    cases List.lookup name schema.enums <;>
      cases List.lookup name schema.objects <;>
        cases List.lookup name schema.interfaces <;>
          cases List.lookup name schema.unions <;>
            cases List.lookup name schema.inputs <;> simp

/-- A one-scalar schema used by concrete witnesses. -/
def stringOnlySchema : Schema :=
  { enums := [], inputs := [], interfaces := [], objects := [],
    scalars := [("String", { Name := "String", Description := "" })], unions := [] }

/-- C10: for every type reference satisfying the list-invariant (isList
implies the element SubType is present, at every level — established by all
four `Describe*` constructors), `Schema.getDeclaration` returns (without
hitting the nil-SubType dereference) the result of looking the fully
unwrapped base element name up in the six collections, and that lookup is
`none` exactly when no collection holds the name. -/
theorem C10_getDeclaration_safe (schema : Schema) (t : SchemaType) (h : listOk t = true) :
    Schema.getDeclaration schema t = .ok (lookupDeclaration schema (baseName t)) ∧
    (lookupDeclaration schema (baseName t) = none ↔
      (List.lookup (baseName t) schema.scalars = none ∧
       List.lookup (baseName t) schema.enums = none ∧
       List.lookup (baseName t) schema.objects = none ∧
       List.lookup (baseName t) schema.interfaces = none ∧
       List.lookup (baseName t) schema.unions = none ∧
       List.lookup (baseName t) schema.inputs = none)) ∧
    (∀ name, listOk (DescribeType name) = true) ∧
    (∀ name, listOk (DescribeNonNullType name) = true) ∧
    (∀ u, listOk u = true → listOk (DescribeListType u) = true) ∧
    (∀ u, listOk u = true → listOk (DescribeNonNullListType u) = true) := by
  refine ⟨getDeclaration_of_listOk schema t h, lookupDeclaration_none_iff schema (baseName t),
    ?_, ?_, ?_, ?_⟩
  · intro name; simp [DescribeType, listOk]
  · intro name; simp [DescribeNonNullType, listOk]
  · intro u hu; simpa [DescribeListType, listOk] using hu
  · intro u hu; simpa [DescribeNonNullListType, listOk] using hu

/-- C10 witness at a concrete schema and nested list type. -/
theorem C10_getDeclaration_safe_witness :
    listOk (DescribeListType (DescribeListType StringType)) = true ∧
    Schema.getDeclaration stringOnlySchema (DescribeListType (DescribeListType StringType)) =
      .ok (lookupDeclaration stringOnlySchema
        (baseName (DescribeListType (DescribeListType StringType)))) := by
  exact ⟨rfl,
    (C10_getDeclaration_safe stringOnlySchema
      (DescribeListType (DescribeListType StringType)) rfl).1⟩

theorem SchemaType.beq_iff : ∀ t1 t2 : SchemaType, SchemaType.beq t1 t2 = true ↔ t1 = t2
  | .mk n1 nn1 l1 st1, .mk n2 nn2 l2 st2 => by
    cases st1 with
    | none =>
      cases st2 with
      | none => simp [SchemaType.beq, and_assoc]
      | some b => simp [SchemaType.beq]
    | some a =>
      cases st2 with
      | none => simp [SchemaType.beq]
      | some b => simp [SchemaType.beq, SchemaType.beq_iff a b, and_assoc]

theorem typeCheck_iff (t1 t2 : SchemaType) : typeCheck t1 t2 = true ↔ t1 = t2 :=
  SchemaType.beq_iff t1 t2

instance : DecidableEq SchemaType :=
  fun a b => decidable_of_iff (SchemaType.beq a b = true) (SchemaType.beq_iff a b)

deriving instance DecidableEq for Argument
deriving instance DecidableEq for Field
deriving instance DecidableEq for Scalar
deriving instance DecidableEq for Enum
deriving instance DecidableEq for Input
deriving instance DecidableEq for Interface
deriving instance DecidableEq for Union
deriving instance DecidableEq for Object
deriving instance DecidableEq for Declaration
deriving instance DecidableEq for Schema

theorem covariantTypeCheck_of_typeCheck (schema : Schema) (t1 t2 : SchemaType)
    (h : typeCheck t1 t2 = true) : covariantTypeCheck schema t1 t2 = true := by
  obtain ⟨n1, nn1, l1, st1⟩ := t1
  obtain ⟨n2, nn2, l2, st2⟩ := t2
  cases st1 <;> cases st2 <;> simp [covariantTypeCheck, h]

/-- A small schema for the concrete covariance facts: scalars String and
Int, interface Pet, objects Dog (implements Pet) and Cat, union CatOrDog. -/
def sampleSchema : Schema :=
  { enums := [], inputs := [],
    interfaces :=
      [("Pet", { Name := "Pet", Description := "",
                 Fields := Fields [{ Name := "name", Description := "",
                                     type := NonNullStringType, Arguments := [] }] })],
    objects :=
      [("Dog", { Name := "Dog", Implements := ["Pet"], Description := "",
                 Fields := Fields [{ Name := "name", Description := "",
                                     type := NonNullStringType, Arguments := [] }] }),
       ("Cat", { Name := "Cat", Implements := ["Pet"], Description := "",
                 Fields := Fields [{ Name := "name", Description := "",
                                     type := NonNullStringType, Arguments := [] }] })],
    scalars := [("String", { Name := "String", Description := "" }),
                ("Int", { Name := "Int", Description := "" })],
    unions := [("CatOrDog", { Name := "CatOrDog", Description := "",
                              Types := Types ["Cat", "Dog"] })] }

/-- C1: the covariance check.  `candidate = required` exactly gives true;
otherwise differing non-null flags give false; with equal non-null flags two
list types check their element types; otherwise the check succeeds exactly
when the candidate names a declared Object and the required type names an
Interface the object implements or a Union listing the object; and on the
sample schema an Object may implement an Interface field of type String as
String but not as String! or Int, while Dog is a valid sub-type of the Pet
interface and of the CatOrDog union. -/
theorem C1_covariantTypeCheck_spec :
    (∀ (schema : Schema) (t1 t2 : SchemaType), t1 = t2 →
       covariantTypeCheck schema t1 t2 = true) ∧
    (∀ (schema : Schema) (t1 t2 : SchemaType), t1 ≠ t2 → t1.NonNull ≠ t2.NonNull →
       covariantTypeCheck schema t1 t2 = false) ∧
    (∀ (schema : Schema) (t1 t2 s1 s2 : SchemaType),
       t1.NonNull = t2.NonNull → t1.List = true → t2.List = true →
       t1.SubType = some s1 → t2.SubType = some s2 →
       covariantTypeCheck schema t1 t2 = covariantTypeCheck schema s1 s2) ∧
    (∀ (schema : Schema) (t1 t2 : SchemaType), t1 ≠ t2 → t1.NonNull = t2.NonNull →
       t1.List = false →
       (covariantTypeCheck schema t1 t2 = true ↔
         ∃ object, Schema.getObject schema t1.Name = some object ∧
           ((∃ intrface, Schema.getInterface schema t2.Name = some intrface ∧
               object.Implements.contains intrface.Name = true) ∨
            (∃ union, Schema.getUnion schema t2.Name = some union ∧
               union.Types.contains object.Name = true)))) ∧
    covariantTypeCheck sampleSchema StringType StringType = true ∧
    covariantTypeCheck sampleSchema NonNullStringType StringType = false ∧
    covariantTypeCheck sampleSchema IntType StringType = false ∧
    covariantTypeCheck sampleSchema (DescribeType "Dog") (DescribeType "Pet") = true ∧
    covariantTypeCheck sampleSchema (DescribeType "Dog") (DescribeType "CatOrDog") = true := by
  refine ⟨?_, ?_, ?_, ?_, by decide, by decide, by decide, by decide, by decide⟩
  · intro schema t1 t2 h
    exact covariantTypeCheck_of_typeCheck schema t1 t2 ((typeCheck_iff t1 t2).mpr h)
  · intro schema t1 t2 hne hnn
    have hc : typeCheck t1 t2 = false := by
      rcases Bool.eq_false_or_eq_true (typeCheck t1 t2) with h | h
      · exact absurd ((typeCheck_iff t1 t2).mp h) hne
      · exact h
    obtain ⟨n1, nn1, l1, st1⟩ := t1
    obtain ⟨n2, nn2, l2, st2⟩ := t2
    simp only [SchemaType.NonNull] at hnn
    cases st1 <;> cases st2 <;> simp [covariantTypeCheck, hc, hnn]
  · intro schema t1 t2 s1 s2 hnn hl1 hl2 hst1 hst2
    obtain ⟨n1, nn1, l1, st1⟩ := t1
    obtain ⟨n2, nn2, l2, st2⟩ := t2
    simp only [SchemaType.NonNull] at hnn
    simp only [SchemaType.List] at hl1 hl2
    simp only [SchemaType.SubType] at hst1 hst2
    subst hl1; subst hl2; subst hst1; subst hst2
    by_cases hc : typeCheck (SchemaType.mk n1 nn1 true (some s1)) (SchemaType.mk n2 nn2 true (some s2)) = true
    · have heq := (typeCheck_iff _ _).mp hc
      injection heq with e1 e2 e3 e4
      injection e4 with e4
      subst e1; subst e2; subst e4
      rw [covariantTypeCheck_of_typeCheck schema _ _ hc]
      rw [covariantTypeCheck_of_typeCheck schema s1 s1 ((typeCheck_iff s1 s1).mpr rfl)]
    · have hc' : typeCheck (SchemaType.mk n1 nn1 true (some s1)) (SchemaType.mk n2 nn2 true (some s2)) = false :=
        Bool.eq_false_iff.mpr hc
      subst hnn
      simp [covariantTypeCheck, hc']
  · intro schema t1 t2 hne hnn hl1
    have hc : typeCheck t1 t2 = false := by
      rcases Bool.eq_false_or_eq_true (typeCheck t1 t2) with h | h
      · exact absurd ((typeCheck_iff t1 t2).mp h) hne
      · exact h
    obtain ⟨n1, nn1, l1, st1⟩ := t1
    obtain ⟨n2, nn2, l2, st2⟩ := t2
    simp only [SchemaType.NonNull] at hnn
    simp only [SchemaType.List] at hl1
    simp only [SchemaType.Name]
    subst hl1
    subst hnn
    cases st1 <;> cases st2 <;>
      · simp only [covariantTypeCheck, hc, if_false, ite_false, ne_eq,
          not_true_eq_false, Bool.false_eq_true]
        cases ho : Schema.getObject schema n1 with
        | none => simp
        | some object =>
          cases hi : Schema.getInterface schema n2 with
          | none =>
            cases hu : Schema.getUnion schema n2 with
            | none => simp
            | some union => simp
          | some intrface =>
            cases hu : Schema.getUnion schema n2 with
            | none => simp
            | some union => simp

/-- The Dog object of the sample schema. -/
def dogObject : Object :=
  { Name := "Dog", Implements := ["Pet"], Description := "",
    Fields := Fields [{ Name := "name", Description := "",
                        type := NonNullStringType, Arguments := [] }] }

/-- The Pet interface of the sample schema. -/
def petInterface : Interface :=
  { Name := "Pet", Description := "",
    Fields := Fields [{ Name := "name", Description := "",
                        type := NonNullStringType, Arguments := [] }] }

/-- C1 witness: the fourth clause applied to Dog vs Pet on the sample
schema, with every hypothesis discharged concretely. -/
theorem C1_covariantTypeCheck_spec_witness :
    covariantTypeCheck sampleSchema (DescribeType "Dog") (DescribeType "Pet") = true ∧
    DescribeType "Dog" ≠ DescribeType "Pet" := by
  have h4 := C1_covariantTypeCheck_spec.2.2.2.1 sampleSchema (DescribeType "Dog")
    (DescribeType "Pet") (by decide) rfl rfl
  exact ⟨h4.mpr ⟨dogObject, by decide, Or.inl ⟨petInterface, by decide, by decide⟩⟩, by decide⟩

theorem validateName_ok_of_valid {name : String} (h : validNameMatcher name = true) :
    validateName name = .ok () := by
  have hne : ¬ name = "" := by
    intro he
    rw [he] at h
    simp [validNameMatcher] at h
  simp [validateName, hne, h]

theorem declare_ok_spec {b : Builder} {d : Declaration} {b' : Builder}
    (h : Builder.declare b d = .ok b') :
    validateName d.name = .ok () ∧ d.name ∉ b.declaredTypeNames ∧
      b'.declaredTypeNames = d.name :: b.declaredTypeNames := by
  unfold Builder.declare at h
  cases hd : declareTypeName b.declaredTypeNames d.name with
  | error e => rw [hd] at h; simp at h
  | ok names =>
    rw [hd] at h
    unfold declareTypeName at hd
    cases hv : validateName d.name with
    | error e => rw [hv] at hd; simp at hd
    | ok u =>
      rw [hv] at hd
      by_cases hc : d.name ∈ b.declaredTypeNames
      · simp [hc] at hd
      · have hd' : d.name :: b.declaredTypeNames = names := by
          simpa [hc] using hd
        dsimp only at h
        simp only [Except.ok.injEq] at h
        subst hd'
        subst h
        exact ⟨rfl, hc, rfl⟩

theorem declare_error_spec {b : Builder} {d : Declaration} {e : BuildError}
    (h : Builder.declare b d = .error e) :
    validateName d.name = .error e ∨
      (validateName d.name = .ok () ∧ e = .duplicateName d.name ∧
        d.name ∈ b.declaredTypeNames) := by
  unfold Builder.declare at h
  cases hd : declareTypeName b.declaredTypeNames d.name with
  | ok names => rw [hd] at h; simp at h
  | error e' =>
    rw [hd] at h
    simp only [Except.error.injEq] at h
    subst h
    unfold declareTypeName at hd
    cases hv : validateName d.name with
    | error e'' =>
      rw [hv] at hd
      have hd' : e'' = e' := by simpa using hd
      exact Or.inl (by rw [hd'])
    | ok u =>
      rw [hv] at hd
      by_cases hc : d.name ∈ b.declaredTypeNames
      · have hd' : BuildError.duplicateName d.name = e' := by simpa [hc] using hd
        exact Or.inr ⟨rfl, hd'.symm, hc⟩
      · simp [hc] at hd

theorem declare_allNames_perm {b : Builder} {d : Declaration} {b' : Builder}
    (h : Builder.declare b d = .ok b') :
    List.Perm b'.schema.allNames (d.name :: b.schema.allNames) := by
  unfold Builder.declare at h
  cases hd : declareTypeName b.declaredTypeNames d.name with
  | error e => rw [hd] at h; simp at h
  | ok names =>
    rw [hd] at h
    simp only [Except.ok.injEq] at h
    subst h
    cases d with
    | enum x =>
      simp only [Schema.allNames, Declaration.name, List.map_cons]
      exact List.Perm.refl _
    | input x =>
      simp only [Schema.allNames, Declaration.name, List.map_cons]
      simpa using List.perm_middle
    | intrface x =>
      simp only [Schema.allNames, Declaration.name, List.map_cons]
      simpa [List.append_assoc] using
        (@List.perm_middle _ x.Name
          (b.schema.enums.map Prod.fst ++ b.schema.inputs.map Prod.fst)
          (b.schema.interfaces.map Prod.fst ++ b.schema.objects.map Prod.fst ++
                 b.schema.scalars.map Prod.fst ++ b.schema.unions.map Prod.fst))
    | object x =>
      simp only [Schema.allNames, Declaration.name, List.map_cons]
      simpa [List.append_assoc] using
        (@List.perm_middle _ x.Name
          (b.schema.enums.map Prod.fst ++ b.schema.inputs.map Prod.fst ++
                 b.schema.interfaces.map Prod.fst)
          (b.schema.objects.map Prod.fst ++ b.schema.scalars.map Prod.fst ++
                 b.schema.unions.map Prod.fst))
    | scalar x =>
      simp only [Schema.allNames, Declaration.name, List.map_cons]
      simpa [List.append_assoc] using
        (@List.perm_middle _ x.Name
          (b.schema.enums.map Prod.fst ++ b.schema.inputs.map Prod.fst ++
                 b.schema.interfaces.map Prod.fst ++ b.schema.objects.map Prod.fst)
          (b.schema.scalars.map Prod.fst ++ b.schema.unions.map Prod.fst))
    | union x =>
      simp only [Schema.allNames, Declaration.name, List.map_cons]
      simpa [List.append_assoc] using
        (@List.perm_middle _ x.Name
          (b.schema.enums.map Prod.fst ++ b.schema.inputs.map Prod.fst ++
                 b.schema.interfaces.map Prod.fst ++ b.schema.objects.map Prod.fst ++
                 b.schema.scalars.map Prod.fst)
          (b.schema.unions.map Prod.fst))

/-- The builder invariant tying the declared-name set to the six
collections. -/
def BuilderInv (b : Builder) : Prop :=
  b.schema.allNames.Nodup ∧ ∀ n ∈ b.schema.allNames, n ∈ b.declaredTypeNames

theorem builderInv_new : BuilderInv NewBuilder := by
  constructor
  · simp [NewBuilder, newSchema, Schema.allNames]
  · intro n hn
    simp [NewBuilder, newSchema, Schema.allNames] at hn

theorem builderInv_declare {b : Builder} {d : Declaration} {b' : Builder}
    (hinv : BuilderInv b) (h : Builder.declare b d = .ok b') : BuilderInv b' := by
  obtain ⟨hok, hnot, hdecl⟩ := declare_ok_spec h
  have hperm := declare_allNames_perm h
  constructor
  · refine hperm.nodup_iff.mpr (List.nodup_cons.mpr ⟨?_, hinv.1⟩)
    intro hmem
    exact hnot (hinv.2 d.name hmem)
  · intro n hn
    rw [hdecl]
    rcases List.mem_cons.mp ((hperm.mem_iff).mp hn) with rfl | h1
    · exact List.mem_cons_self _ _
    · exact List.mem_cons_of_mem _ (hinv.2 n h1)

theorem declareAll_ok_names : ∀ (ds : List Declaration) (b b' : Builder),
    declareAll ds b = .ok b' →
      (ds.map Declaration.name).Nodup ∧
      (∀ n ∈ ds.map Declaration.name, n ∉ b.declaredTypeNames)
  | [], b, b', _ => by simp
  | d :: rest, b, b', h => by
    unfold declareAll at h
    cases hdec : Builder.declare b d with
    | error e => rw [hdec] at h; simp at h
    | ok b₁ =>
      rw [hdec] at h
      obtain ⟨hok, hnot, hdecl⟩ := declare_ok_spec hdec
      obtain ⟨ih1, ih2⟩ := declareAll_ok_names rest b₁ b' h
      refine ⟨List.nodup_cons.mpr ⟨?_, ih1⟩, ?_⟩
      · intro hmem
        exact ih2 d.name hmem (hdecl ▸ List.mem_cons_self _ _)
      · intro n hn
        simp only [List.map_cons, List.mem_cons] at hn
        rcases hn with rfl | hn
        · exact hnot
        · intro hmem
          exact ih2 n hn (hdecl ▸ List.mem_cons_of_mem _ hmem)

theorem declareAll_ok_inv : ∀ (ds : List Declaration) (b b' : Builder),
    BuilderInv b → declareAll ds b = .ok b' → BuilderInv b'
  | [], b, b', hinv, h => by
    unfold declareAll at h
    simp only [Except.ok.injEq] at h
    exact h ▸ hinv
  | d :: rest, b, b', hinv, h => by
    unfold declareAll at h
    cases hdec : Builder.declare b d with
    | error e => rw [hdec] at h; simp at h
    | ok b₁ =>
      rw [hdec] at h
      exact declareAll_ok_inv rest b₁ b' (builderInv_declare hinv hdec) h

theorem declareAll_error_dup : ∀ (ds : List Declaration) (b : Builder) (e : BuildError),
    (∀ d ∈ ds, validNameMatcher d.name = true) →
    declareAll ds b = .error e →
      ∃ n, e = .duplicateName n ∧ n ∈ ds.map Declaration.name ∧
        (n ∈ b.declaredTypeNames ∨ 2 ≤ (ds.map Declaration.name).count n)
  | [], b, e, _, h => by simp [declareAll] at h
  | d :: rest, b, e, hvalid, h => by
    unfold declareAll at h
    cases hdec : Builder.declare b d with
    | error e' =>
      rw [hdec] at h
      simp only [Except.error.injEq] at h
      subst h
      rcases declare_error_spec hdec with h1 | ⟨_, h2, h3⟩
      · rw [validateName_ok_of_valid (hvalid d (List.mem_cons_self _ _))] at h1
        simp at h1
      · exact ⟨d.name, h2, by simp, Or.inl h3⟩
    | ok b₁ =>
      rw [hdec] at h
      obtain ⟨hok, hnot, hdecl⟩ := declare_ok_spec hdec
      obtain ⟨n, he, hmemds, hwhere⟩ :=
        declareAll_error_dup rest b₁ e (fun x hx => hvalid x (List.mem_cons_of_mem _ hx)) h
      refine ⟨n, he, by simp [hmemds], ?_⟩
      rcases hwhere with hmem | hcount
      · rw [hdecl] at hmem
        rcases List.mem_cons.mp hmem with rfl | hmem
        · right
          have hpos : 0 < (rest.map Declaration.name).count d.name :=
            List.count_pos_iff.mpr hmemds
          simp only [List.map_cons, List.count_cons_self]
          omega
        · exact Or.inl hmem
      · right
        simp only [List.map_cons, List.count_cons]
        split
        all_goals omega

/-- C5: declaring two types with the same name (any variants) always makes
schema construction fail; with well-formed names the failure is the
validation error naming the duplicate; and a successful construction has
pairwise distinct type names across the six collections. -/
theorem C5_duplicate_names_fail :
    (∀ ds : List Declaration, ¬ (ds.map Declaration.name).Nodup →
       ∃ e, declareAll ds NewBuilder = .error e) ∧
    (∀ ds : List Declaration, (∀ d ∈ ds, validNameMatcher d.name = true) →
       ¬ (ds.map Declaration.name).Nodup →
       ∃ n, declareAll ds NewBuilder = .error (.duplicateName n) ∧
         2 ≤ (ds.map Declaration.name).count n) ∧
    (∀ (ds : List Declaration) (b' : Builder), declareAll ds NewBuilder = .ok b' →
       (ds.map Declaration.name).Nodup ∧ b'.schema.allNames.Nodup) := by
  have hfail : ∀ ds : List Declaration, ¬ (ds.map Declaration.name).Nodup →
      ∃ e, declareAll ds NewBuilder = .error e := by
    intro ds hdup
    cases h : declareAll ds NewBuilder with
    | error e => exact ⟨e, rfl⟩
    | ok b' => exact absurd (declareAll_ok_names ds NewBuilder b' h).1 hdup
  refine ⟨hfail, ?_, ?_⟩
  · intro ds hvalid hdup
    obtain ⟨e, he⟩ := hfail ds hdup
    obtain ⟨n, rfl, _, hwhere⟩ := declareAll_error_dup ds NewBuilder e hvalid he
    rcases hwhere with hmem | hcount
    · simp [NewBuilder] at hmem
    · exact ⟨n, he, hcount⟩
  · intro ds b' h
    exact ⟨(declareAll_ok_names ds NewBuilder b' h).1,
      (declareAll_ok_inv ds NewBuilder b' builderInv_new h).1⟩

/-- C5 witness: a Scalar and an Enum both named Foo fail construction with
the duplicate-name validation error. -/
theorem C5_duplicate_names_fail_witness :
    ∃ n, declareAll [.scalar { Name := "Foo", Description := "" },
                     .enum { Name := "Foo", Values := ["A"], Description := "" }] NewBuilder =
        .error (.duplicateName n) ∧
      2 ≤ (([.scalar { Name := "Foo", Description := "" },
             .enum { Name := "Foo", Values := ["A"], Description := "" }] :
             List Declaration).map Declaration.name).count n := by
  refine C5_duplicate_names_fail.2.1 _ ?_ ?_
  · intro d hd
    rcases List.mem_cons.mp hd with rfl | hd
    · rfl
    · rcases List.mem_cons.mp hd with rfl | hd
      · rfl
      · simp at hd
  · decide

/-- The empty selection set. -/
def emptySelectionSet : DocSelectionSet := .mk [] [] []

/-- C2 (code bug): `validate` does not return normally for any document
that contains an operation or a fragment — the validator's name maps are nil
(only `schema` and `document` are set in the struct literal), and the first
name-set insertion is a nil-map assignment panic; moreover the Go function
returns no error list at all (its tests call `errors := validate(...)`).
Only the empty document returns normally, with the internal error list
empty and discarded. -/
theorem C2_validate_panics :
    validate stringOnlySchema
        { Operations := [{ type := "query", Name := "Q", SelectionSet := emptySelectionSet }],
          Fragments := [] } = .error .nilMapAssignment ∧
    validate stringOnlySchema
        { Operations := [],
          Fragments := [{ Name := "F", type := "String", SelectionSet := emptySelectionSet }] } =
      .error .nilMapAssignment ∧
    validate stringOnlySchema { Operations := [], Fragments := [] } = .ok [] := by
  refine ⟨rfl, rfl, rfl⟩

theorem unionFieldErrors (fields : List DocField) :
    ∀ errors : List ValidationError,
      fields.foldl
        (fun es selectedField =>
          if selectedField.Name ≠ "__typename" then es ++ [.cannotSelectNonMetaFieldFromUnion]
          else es)
        errors =
      errors ++ (fields.filter (fun f => f.Name != "__typename")).map
        (fun _ => .cannotSelectNonMetaFieldFromUnion) := by
  induction fields with
  | nil => intro errors; simp
  | cons f rest ih =>
    intro errors
    simp only [List.foldl_cons, List.filter_cons]
    by_cases hf : f.Name = "__typename"
    · rw [if_neg (by simp [hf])]
      rw [ih]
      have hb : (f.Name != "__typename") = false := by simp [hf]
      rw [hb]
      simp
    · rw [if_pos hf]
      rw [ih]
      have hb : (f.Name != "__typename") = true := by simp [hf]
      rw [hb]
      simp

/-- The Cat object of the sample schema. -/
def catObject : Object :=
  { Name := "Cat", Implements := ["Pet"], Description := "",
    Fields := Fields [{ Name := "name", Description := "",
                        type := NonNullStringType, Arguments := [] }] }

/-- The CatOrDog union of the sample schema. -/
def catOrDogUnion : Union :=
  { Name := "CatOrDog", Description := "", Types := Types ["Cat", "Dog"] }

/-- C8: validating a selection set against a Union type yields one error
per directly selected non-`__typename` field (and none for `__typename`);
concretely, one direct `name` selection on the two-member union CatOrDog is
exactly one error, while the same field wrapped in an inline fragment typed
to the member Cat — which declares `name` — yields zero errors. -/
theorem C8_union_selection :
    (∀ (schema : Schema) (union : Union) (fields : List DocField) (sprs : List String),
       validateUnionSelectionSet schema [] union (.mk fields [] sprs) =
         .ok ((fields.filter (fun f => f.Name != "__typename")).map
           (fun _ => .cannotSelectNonMetaFieldFromUnion))) ∧
    validateUnionSelectionSet sampleSchema [] catOrDogUnion
        (.mk [.mk "name" "" emptySelectionSet] [] []) =
      .ok [.cannotSelectNonMetaFieldFromUnion] ∧
    validateUnionSelectionSet sampleSchema [] catOrDogUnion
        (.mk [] [.mk "Cat" (.mk [.mk "name" "" emptySelectionSet] [] [])] []) = .ok [] ∧
    sampleSchema.getObject "Cat" = some catObject ∧
    (List.lookup "name" catObject.Fields).isSome = true ∧
    catOrDogUnion.Types.length = 2 := by
  refine ⟨?_, rfl, rfl, by decide, by decide, by decide⟩
  intro schema union fields sprs
  unfold validateUnionSelectionSet
  simp only [DocSelectionSet.Fields, DocSelectionSet.InlineFragments]
  rw [unionFieldErrors]
  simp only [List.foldlM]
  rfl

/-- C3 counterexample: `"-01"` does NOT fail with a LexError — the scanner
returns Integer `"-0"`, then Integer `"1"`, then EOF, with no error (the
leading `-0` special case simply stops the number; the following digit
starts a fresh Integer token). -/
theorem C3_counterexample_dash01_no_error :
    Tokenize 10 "-01" false =
      some ([{ type := .Integer, Value := "-0", Line := 0, ColumnStart := 0, ColumnEnd := 1 },
             { type := .Integer, Value := "1", Line := 0, ColumnStart := 2, ColumnEnd := 5 },
             { type := .EOF, Value := "", Line := 0, ColumnStart := 6, ColumnEnd := 6 }],
            none) := by
  rfl

/-- C3 (amended): `"-0"` is a single Integer token; `"-01"` is two Integer
tokens `-0` and `1` with no LexError; `"1.5"`, `"1e10"`, `"1.5e-10"` are
single Float tokens; `"-"`, `"1."`, `"1e"` are LexErrors. -/
theorem C3_numeric_classification :
    Tokenize 10 "-0" false =
      some ([{ type := .Integer, Value := "-0", Line := 0, ColumnStart := 0, ColumnEnd := 3 },
             { type := .EOF, Value := "", Line := 0, ColumnStart := 4, ColumnEnd := 4 }],
            none) ∧
    Tokenize 10 "-01" false =
      some ([{ type := .Integer, Value := "-0", Line := 0, ColumnStart := 0, ColumnEnd := 1 },
             { type := .Integer, Value := "1", Line := 0, ColumnStart := 2, ColumnEnd := 5 },
             { type := .EOF, Value := "", Line := 0, ColumnStart := 6, ColumnEnd := 6 }],
            none) ∧
    Tokenize 10 "1.5" false =
      some ([{ type := .Float, Value := "1.5", Line := 0, ColumnStart := 0, ColumnEnd := 4 },
             { type := .EOF, Value := "", Line := 0, ColumnStart := 5, ColumnEnd := 5 }],
            none) ∧
    Tokenize 10 "1e10" false =
      some ([{ type := .Float, Value := "1e10", Line := 0, ColumnStart := 0, ColumnEnd := 4 },
             { type := .EOF, Value := "", Line := 0, ColumnStart := 5, ColumnEnd := 5 }],
            none) ∧
    Tokenize 10 "1.5e-10" false =
      some ([{ type := .Float, Value := "1.5e-10", Line := 0, ColumnStart := 0, ColumnEnd := 7 },
             { type := .EOF, Value := "", Line := 0, ColumnStart := 8, ColumnEnd := 8 }],
            none) ∧
    Tokenize 10 "-" false = some ([], some "invalid Integer: -") ∧
    Tokenize 10 "1." false = some ([], some "invalid Float: 1.") ∧
    Tokenize 10 "1e" false = some ([], some "invalid Float: 1e") := by
  exact ⟨rfl, rfl, rfl, rfl, rfl, rfl, rfl, rfl⟩

/-- C7: inside a string literal, `\u` followed by exactly 4 hexadecimal
digits decodes to the single code point with that value; each of the fixed
single-character escapes `b t n f r " \ /` decodes to its standard
control/literal code point (and any such successful escape appends exactly
that character to the string value); any other escape character causes a
LexError naming the offending escape; a `\u` escape whose next runes are
not 4 hexadecimal digits causes a LexError reporting the partial escape;
and concretely the source text `"\u0041"` tokenizes to a String token with
value `A` while `"\q"` is a LexError. -/
theorem C7_string_escapes :
    (∀ (value : String) (L C SC : Int) (c1 c2 c3 c4 : Char) (rest : List Char),
      isHexidecimalCharacter c1 = true → isHexidecimalCharacter c2 = true →
      isHexidecimalCharacter c3 = true → isHexidecimalCharacter c4 = true →
      consumeStringEscapeSequence value ⟨L, C, SC, 'u' :: c1 :: c2 :: c3 :: c4 :: rest⟩ =
        .ok (value ++ (writeRuneChar (hexStringValue ⟨[c1, c2, c3, c4]⟩)).toString,
             ⟨L, C + 5, -1, rest⟩)) ∧
    (escapedCharacterToRune 'b' = some '\u0008' ∧
     escapedCharacterToRune 't' = some '\u0009' ∧
     escapedCharacterToRune 'n' = some '\u000A' ∧
     escapedCharacterToRune 'f' = some '\u000C' ∧
     escapedCharacterToRune 'r' = some '\u000D' ∧
     escapedCharacterToRune '"' = some '"' ∧
     escapedCharacterToRune '\\' = some '\\' ∧
     escapedCharacterToRune '/' = some '/') ∧
    (∀ (value : String) (L C SC : Int) (r ec : Char) (rest : List Char),
      r ≠ 'u' → escapedCharacterToRune r = some ec →
      consumeStringEscapeSequence value ⟨L, C, SC, r :: rest⟩ =
        .ok (value ++ ec.toString, ⟨L, C + 1, -1, rest⟩)) ∧
    (∀ (value : String) (L C SC : Int) (r : Char) (rest : List Char),
      r ≠ 'u' → escapedCharacterToRune r = none →
      consumeStringEscapeSequence value ⟨L, C, SC, r :: rest⟩ =
        .error ("invalid escape sequence character in String: " ++ value ++ "\\" ++ r.toString)) ∧
    (∀ (value : String) (L C SC : Int) (rest : List Char) (str : String)
       (e : ConsumeErr) (s' : LexState),
      consume 4 isHexidecimalCharacter ⟨L, C + 1, -1, rest⟩ = ((str, some e), s') →
      consumeStringEscapeSequence value ⟨L, C, SC, 'u' :: rest⟩ =
        .error ("invalid escaped unicode value in String: " ++ value ++ "\\u" ++ str)) ∧
    Tokenize 10 "\"\\u0041\"" false =
      some ([{ type := .String, Value := "A", Line := 0, ColumnStart := 0, ColumnEnd := 7 },
             { type := .EOF, Value := "", Line := 0, ColumnStart := 8, ColumnEnd := 8 }],
            none) ∧
    Tokenize 10 "\"\\q\"" false =
      some ([], some "invalid escape sequence character in String: \\q") := by
  refine ⟨?_, by decide, ?_, ?_, ?_, rfl, rfl⟩
  · intro value L C SC c1 c2 c3 c4 rest h1 h2 h3 h4
    simp only [consumeStringEscapeSequence, readRune_cons, if_true, consume,
      h1, h2, h3, h4, if_pos rfl]
    rw [show C + 1 + 1 + 1 + 1 + 1 = C + 5 from by ring]
    rfl
  · intro value L C SC r ec rest hr he
    simp only [consumeStringEscapeSequence, readRune_cons, hr, if_false, he]
  · intro value L C SC r rest hr he
    simp only [consumeStringEscapeSequence, readRune_cons, hr, if_false, he]
  · intro value L C SC rest str e s' hcm
    simp only [consumeStringEscapeSequence, readRune_cons, if_pos rfl, hcm]
    simp

/-!
## Parser cursor invariant (C9) and parse contract (C6)
-/

/-- The parser cursor invariant: `position` indexes into `tokens`. -/
def ParserInv (p : Parser) : Prop := p.position < p.tokens.length

/-- A parse-step result is `Good` for the parser `p` it started from: it is
not the index-out-of-range panic, and on success the token list is unchanged
and the cursor invariant holds again (`proj` extracts the resulting parser
from the result value). -/
def Good {α : Type} (proj : α → Parser) (p : Parser) (r : Except ParseError α) : Prop :=
  r ≠ .error .indexOutOfRange ∧
    ∀ a, r = .ok a → (proj a).tokens = p.tokens ∧ ParserInv (proj a)

theorem pbind_error {α β : Type} (e : ParseError) (f : α → Except ParseError β) :
    Bind.bind (Except.error e) f = (Except.error e : Except ParseError β) := rfl

theorem pbind_ok {α β : Type} (a : α) (f : α → Except ParseError β) :
    Bind.bind (Except.ok a) f = f a := rfl

theorem ppure_eq {α : Type} (a : α) : (pure a : Except ParseError α) = .ok a := rfl

theorem good_error {α : Type} (proj : α → Parser) (p : Parser) {e : ParseError}
    (h : e ≠ .indexOutOfRange) : Good proj p (.error e) := by
  constructor
  · intro hc
    injection hc with h'
    exact h h'
  · intro a ha
    exact Except.noConfusion ha

theorem good_pure {α : Type} {proj : α → Parser} {p : Parser} {a : α}
    (ht : (proj a).tokens = p.tokens) (hp : ParserInv (proj a)) :
    Good proj p (.ok a) := by
  constructor
  · intro hc
    exact Except.noConfusion hc
  · intro b hb
    injection hb with h'
    subst h'
    exact ⟨ht, hp⟩

theorem good_bind {α β : Type} {pa : α → Parser} {pb : β → Parser} {p : Parser}
    {r : Except ParseError α} {f : α → Except ParseError β}
    (hr : Good pa p r)
    (hf : ∀ a, r = .ok a → (pa a).tokens = p.tokens → ParserInv (pa a) →
      Good pb (pa a) (f a)) :
    Good pb p (Bind.bind r f) := by
  cases r with
  | error e =>
    rw [pbind_error]
    refine ⟨?_, ?_⟩
    · intro hc
      injection hc with h'
      exact hr.1 (by rw [h'])
    · intro a ha
      exact Except.noConfusion ha
  | ok a =>
    rw [pbind_ok]
    obtain ⟨ht, hi⟩ := hr.2 a rfl
    obtain ⟨h1, h2⟩ := hf a rfl ht hi
    refine ⟨h1, ?_⟩
    intro b hb
    obtain ⟨ht', hi'⟩ := h2 b hb
    exact ⟨ht'.trans ht, hi'⟩

theorem peek_ok_of_inv {p : Parser} (hp : ParserInv p) :
    p.peek = .ok (p.tokens.get ⟨p.position, hp⟩) := by
  unfold Parser.peek
  rw [List.get?_eq_get hp]

theorem good_bind_peek {β : Type} {pb : β → Parser} {p : Parser} (hp : ParserInv p)
    {f : Token → Except ParseError β}
    (hf : ∀ t, p.peek = .ok t → Good pb p (f t)) :
    Good pb p (Bind.bind p.peek f) := by
  rw [peek_ok_of_inv hp, pbind_ok]
  exact hf _ (peek_ok_of_inv hp)

/-- `Parser.take` under the invariant: the current token is returned, and the
position advances except at the last token, where it stays put (so repeated
reads at the end return the final token forever). -/
theorem take_spec {p : Parser} (hp : ParserInv p) :
    p.take = .ok (p.tokens.get ⟨p.position, hp⟩,
      if p.position = p.tokens.length - 1 then p
      else { p with position := p.position + 1 }) := by
  unfold Parser.take
  rw [List.get?_eq_get hp]
  dsimp only
  simp only [ne_eq]
  by_cases h : p.position = p.tokens.length - 1
  · rw [if_neg (not_not_intro h), if_pos h]
  · rw [if_pos h, if_neg h]

theorem good_take {p : Parser} (hp : ParserInv p) : Good Prod.snd p p.take := by
  rw [take_spec hp]
  by_cases h : p.position = p.tokens.length - 1
  · rw [if_pos h]
    exact good_pure rfl hp
  · rw [if_neg h]
    refine good_pure rfl ?_
    have hp' : p.position < p.tokens.length := hp
    show p.position + 1 < p.tokens.length
    omega

theorem good_expect {p : Parser} (hp : ParserInv p) (t : TokenType) :
    Good Prod.snd p (p.expect t) := by
  unfold Parser.expect
  refine good_bind_peek hp ?_
  intro tok _
  by_cases h : tok.type = t
  · rw [if_neg (not_not_intro h)]
    refine good_bind (good_take hp) ?_
    rintro ⟨t', p'⟩ _ ht hi
    exact good_pure rfl hi
  · rw [if_pos h]
    exact good_error _ _ (fun hc => ParseError.noConfusion hc)

theorem good_accept {p : Parser} (hp : ParserInv p) (t : TokenType) (vs : List String) :
    Good Prod.snd p (p.accept t vs) := by
  unfold Parser.accept
  refine good_bind_peek hp ?_
  intro tok _
  by_cases h : tok.type = t
  · rw [if_pos h]
    by_cases hv : vs.contains tok.Value = true
    · rw [if_pos hv]
      refine good_bind (good_take hp) ?_
      rintro ⟨t', p'⟩ _ ht hi
      exact good_pure rfl hi
    · rw [if_neg hv]
      exact good_error _ _ (fun hc => ParseError.noConfusion hc)
  · rw [if_neg h]
    exact good_error _ _ (fun hc => ParseError.noConfusion hc)

theorem good_optional {p : Parser} (hp : ParserInv p) (t : TokenType) :
    Good Prod.snd p (p.optional t) := by
  unfold Parser.optional
  refine good_bind_peek hp ?_
  intro tok _
  by_cases h : tok.type = t
  · rw [if_pos h]
    refine good_bind (good_take hp) ?_
    rintro ⟨t', p'⟩ _ ht hi
    exact good_pure rfl hi
  · rw [if_neg h]
    exact good_pure rfl hp

theorem good_parseSelectionSet {p : Parser} (hp : ParserInv p) :
    Good Prod.snd p (parseSelectionSet p) := by
  unfold parseSelectionSet
  refine good_bind (good_expect hp .OpenBrace) ?_
  rintro ⟨tk₁, p₁⟩ _ ht₁ hi₁
  refine good_bind (good_expect hi₁ .ClosedBrace) ?_
  rintro ⟨tk₂, p₂⟩ _ ht₂ hi₂
  exact good_pure rfl hi₂

theorem good_parseType_pair : ∀ fuel : Nat,
    (∀ p : Parser, ParserInv p → Good Prod.snd p (parseType fuel p)) ∧
    (∀ p : Parser, ParserInv p → Good Prod.snd p (parseTypeInner fuel p)) := by
  intro fuel
  induction fuel with
  | zero =>
    constructor <;> intro p hp <;>
      exact good_error _ _ (fun hc => ParseError.noConfusion hc)
  | succ n ih =>
    constructor
    · intro p hp
      simp only [parseType]
      refine good_bind (ih.2 p hp) ?_
      rintro ⟨t, p₁⟩ _ ht₁ hi₁
      refine good_bind (good_optional hi₁ .Exclamation) ?_
      rintro ⟨⟨tk, nn⟩, p₂⟩ _ ht₂ hi₂
      exact good_pure rfl hi₂
    · intro p hp
      simp only [parseTypeInner]
      refine good_bind_peek hp ?_
      intro tok _
      by_cases h : tok.type = .OpenBracket
      · rw [if_pos h]
        refine good_bind (good_expect hp .OpenBracket) ?_
        rintro ⟨tk₁, p₁⟩ _ ht₁ hi₁
        refine good_bind (ih.1 p₁ hi₁) ?_
        rintro ⟨st, p₂⟩ _ ht₂ hi₂
        refine good_bind (good_expect hi₂ .ClosedBracket) ?_
        rintro ⟨tk₃, p₃⟩ _ ht₃ hi₃
        exact good_pure rfl hi₃
      · rw [if_neg h]
        refine good_bind (good_expect hp .Name) ?_
        rintro ⟨nt, p₁⟩ _ ht₁ hi₁
        exact good_pure rfl hi₁

theorem good_parseVariablesLoop : ∀ (fuel : Nat) (p : Parser), ParserInv p →
    Good id p (parseVariablesLoop fuel p) := by
  intro fuel
  induction fuel with
  | zero =>
    intro p hp
    exact good_error _ _ (fun hc => ParseError.noConfusion hc)
  | succ n ih =>
    intro p hp
    simp only [parseVariablesLoop]
    refine good_bind_peek hp ?_
    intro tok _
    by_cases h : tok.type = .Dollar
    · rw [if_neg (not_not_intro h)]
      refine good_bind (good_expect hp .Dollar) ?_
      rintro ⟨t₁, p₁⟩ _ ht₁ hi₁
      refine good_bind (good_expect hi₁ .Name) ?_
      rintro ⟨t₂, p₂⟩ _ ht₂ hi₂
      refine good_bind (good_expect hi₂ .Colon) ?_
      rintro ⟨t₃, p₃⟩ _ ht₃ hi₃
      refine good_bind ((good_parseType_pair n).1 p₃ hi₃) ?_
      rintro ⟨t₄, p₄⟩ _ ht₄ hi₄
      refine good_bind (good_optional hi₄ .Equals) ?_
      rintro ⟨⟨t₅, dg⟩, p₅⟩ _ ht₅ hi₅
      cases dg with
      | true =>
        rw [if_pos rfl]
        refine good_bind_peek hi₅ ?_
        intro _ _
        exact ih p₅ hi₅
      | false =>
        rw [if_neg (by simp)]
        exact ih p₅ hi₅
    · rw [if_pos h]
      exact good_pure rfl hp

theorem good_parseVariables (fuel : Nat) {p : Parser} (hp : ParserInv p) :
    Good Prod.snd p (parseVariables fuel p) := by
  unfold parseVariables
  refine good_bind (good_expect hp .OpenParen) ?_
  rintro ⟨t₁, p₁⟩ _ ht₁ hi₁
  refine good_bind (good_parseVariablesLoop fuel p₁ hi₁) ?_
  intro p₂ _ ht₂ hi₂
  refine good_bind (good_expect hi₂ .ClosedParen) ?_
  rintro ⟨t₃, p₃⟩ _ ht₃ hi₃
  exact good_pure rfl hi₃

theorem good_parseOperation (fuel : Nat) (ot : String) {p : Parser} (hp : ParserInv p) :
    Good Prod.snd p (parseOperation fuel ot p) := by
  unfold parseOperation
  refine good_bind (good_optional hp .Name) ?_
  rintro ⟨⟨nt, b⟩, p₁⟩ _ ht₁ hi₁
  refine good_bind (good_parseVariables fuel hi₁) ?_
  rintro ⟨vd, p₂⟩ _ ht₂ hi₂
  refine good_bind (good_parseSelectionSet hi₂) ?_
  rintro ⟨ss, p₄⟩ _ ht₄ hi₄
  exact good_pure rfl hi₄

theorem good_parseDocumentLoop : ∀ (fuel : Nat) (p : Parser) (ops : List POperation)
    (frs : List PFragment), ParserInv p →
    Good Prod.snd p (parseDocumentLoop fuel p ops frs) := by
  intro fuel
  induction fuel with
  | zero =>
    intro p ops frs hp
    exact good_error _ _ (fun hc => ParseError.noConfusion hc)
  | succ n ih =>
    intro p ops frs hp
    simp only [parseDocumentLoop]
    refine good_bind_peek hp ?_
    intro tok _
    by_cases h : tok.type = .EOF
    · rw [if_pos h]
      exact good_pure rfl hp
    · rw [if_neg h]
      refine good_bind (good_accept hp .Name ["query", "mutation", "fragment"]) ?_
      rintro ⟨dt, p₁⟩ _ ht₁ hi₁
      by_cases hf : dt.Value = "fragment"
      · rw [if_pos hf]
        exact ih p₁ ops (frs ++ [⟨⟩]) hi₁
      · rw [if_neg hf]
        refine good_bind (good_parseOperation n dt.Value hi₁) ?_
        rintro ⟨op, p₂⟩ _ ht₂ hi₂
        exact ih p₂ (ops ++ [op]) frs hi₂

theorem good_parseDocument (fuel : Nat) {p : Parser} (hp : ParserInv p) :
    Good Prod.snd p (parseDocument fuel p) := by
  unfold parseDocument
  refine good_bind_peek hp ?_
  intro tok _
  by_cases h : tok.type = .OpenBrace
  · rw [if_pos h]
    refine good_bind (good_parseSelectionSet hp) ?_
    rintro ⟨ss, p₁⟩ _ ht₁ hi₁
    refine good_bind (good_expect hi₁ .EOF) ?_
    rintro ⟨t₂, p₂⟩ _ ht₂ hi₂
    exact good_pure rfl hi₂
  · rw [if_neg h]
    refine good_bind (good_parseDocumentLoop fuel p [] [] hp) ?_
    rintro ⟨res, p'⟩ _ ht hi
    exact good_pure rfl hi

theorem good_parse (fuel : Nat) {p : Parser} (hp : ParserInv p) :
    Good (fun _ : Unit => p) p (parse fuel p) := by
  unfold parse
  refine good_bind (good_parseDocument fuel hp) ?_
  rintro ⟨doc, p'⟩ _ ht hi
  exact good_pure ht.symm hp

/-- Every successful `parseDocument` returns the empty document: both return
paths of the Go function end in `return Document{}`. -/
theorem parseDocument_ok_empty : ∀ (fuel : Nat) (p p' : Parser) (doc : PDocument),
    parseDocument fuel p = .ok (doc, p') → doc = ⟨[], []⟩ := by
  intro fuel p p' doc h
  unfold parseDocument at h
  cases hpk : p.peek with
  | error e =>
    rw [hpk, pbind_error] at h
    exact Except.noConfusion h
  | ok tok =>
    rw [hpk, pbind_ok] at h
    by_cases hb : tok.type = .OpenBrace
    · rw [if_pos hb] at h
      cases hss : parseSelectionSet p with
      | error e =>
        rw [hss, pbind_error] at h
        exact Except.noConfusion h
      | ok a =>
        rw [hss, pbind_ok] at h
        obtain ⟨ss, p₁⟩ := a
        dsimp only at h
        cases hex : p₁.expect .EOF with
        | error e =>
          rw [hex, pbind_error] at h
          exact Except.noConfusion h
        | ok b =>
          rw [hex, pbind_ok] at h
          obtain ⟨t₂, p₂⟩ := b
          dsimp only at h
          rw [ppure_eq] at h
          injection h with h₁
          exact (congrArg Prod.fst h₁).symm
    · rw [if_neg hb] at h
      cases hdl : parseDocumentLoop fuel p [] [] with
      | error e =>
        rw [hdl, pbind_error] at h
        exact Except.noConfusion h
      | ok a =>
        rw [hdl, pbind_ok] at h
        obtain ⟨res, p₁⟩ := a
        dsimp only at h
        rw [ppure_eq] at h
        injection h with h₁
        exact (congrArg Prod.fst h₁).symm

/-- C9: for every parser state whose cursor indexes into the token list
(in particular every parse started on a non-empty list), `peek` returns the
token at the cursor, `take` returns it and advances except at the last
token, where the position stays put (so repeated reads at the end return
the final token forever), `expect`, `accept` and `optional` preserve the
token list and the cursor bound on success, and `parse` on a non-empty
token list never raises the index-out-of-range panic. -/
theorem C9_parser_cursor_invariant :
    (∀ (p : Parser) (h : p.position < p.tokens.length),
        p.peek = .ok (p.tokens.get ⟨p.position, h⟩)) ∧
    (∀ (p : Parser) (h : p.position < p.tokens.length),
        p.take = .ok (p.tokens.get ⟨p.position, h⟩,
          if p.position = p.tokens.length - 1 then p
          else { p with position := p.position + 1 })) ∧
    (∀ (p : Parser) (t : TokenType) (tok : Token) (p' : Parser),
        p.position < p.tokens.length → p.expect t = .ok (tok, p') →
        p'.tokens = p.tokens ∧ p'.position < p'.tokens.length) ∧
    (∀ (p : Parser) (t : TokenType) (vs : List String) (tok : Token) (p' : Parser),
        p.position < p.tokens.length → p.accept t vs = .ok (tok, p') →
        p'.tokens = p.tokens ∧ p'.position < p'.tokens.length) ∧
    (∀ (p : Parser) (t : TokenType) (tok : Token) (b : Bool) (p' : Parser),
        p.position < p.tokens.length → p.optional t = .ok ((tok, b), p') →
        p'.tokens = p.tokens ∧ p'.position < p'.tokens.length) ∧
    (∀ (fuel : Nat) (tokens : List Token), tokens ≠ [] →
        parse fuel ⟨tokens, 0⟩ ≠ .error .indexOutOfRange) := by
  refine ⟨?_, ?_, ?_, ?_, ?_, ?_⟩
  · intro p h
    exact peek_ok_of_inv h
  · intro p h
    exact take_spec h
  · intro p t tok p' h hx
    exact (good_expect h t).2 (tok, p') hx
  · intro p t vs tok p' h hx
    exact (good_accept h t vs).2 (tok, p') hx
  · intro p t tok b p' h hx
    exact (good_optional h t).2 ((tok, b), p') hx
  · intro fuel tokens hne
    have hp : ParserInv ⟨tokens, 0⟩ := by
      show 0 < tokens.length
      cases tokens with
      | nil => exact absurd rfl hne
      | cons a l => simp
    exact (good_parse fuel hp).1

/-- C6 (amended): for every parser state whose cursor indexes into the token
list, `parse` either succeeds — carrying no document at all: the Go function
returns only the error, and the parsed operations and fragments are
discarded — or runs out of fuel (the Go loop can spin forever at a trailing
`fragment` token), or fails with the recovered panic error, whose message
has exactly the form `Expected X but found Y`; and every successful
`parseDocument` returns the empty document, never a partial one. -/
theorem C6_parse_contract :
    (∀ (fuel : Nat) (p : Parser), p.position < p.tokens.length →
        parse fuel p = .ok () ∨
        parse fuel p = .error .outOfFuel ∨
        ∃ expected actual, parse fuel p = .error (.unexpected expected actual) ∧
          parseErrorMessage (.unexpected expected actual) =
            "Expected " ++ String.intercalate " or " expected ++ " but found " ++ actual) ∧
    (∀ (fuel : Nat) (p p' : Parser) (doc : PDocument),
        parseDocument fuel p = .ok (doc, p') → doc = ⟨[], []⟩) := by
  constructor
  · intro fuel p hp
    have hg := good_parse fuel hp
    cases hr : parse fuel p with
    | ok u =>
      cases u
      exact Or.inl rfl
    | error e =>
      cases e with
      | unexpected exp act => exact Or.inr (Or.inr ⟨exp, act, rfl, rfl⟩)
      | indexOutOfRange => exact absurd hr hg.1
      | outOfFuel => exact Or.inr (Or.inl rfl)
  · exact parseDocument_ok_empty

/-- The tokens of the well-formed document `query ( ) { }`. -/
def queryTokens : List Token :=
  [{ type := .Name, Value := "query", Line := 0, ColumnStart := 0, ColumnEnd := 0 },
   { type := .OpenParen, Value := "", Line := 0, ColumnStart := 1, ColumnEnd := 1 },
   { type := .ClosedParen, Value := "", Line := 0, ColumnStart := 2, ColumnEnd := 2 },
   { type := .OpenBrace, Value := "", Line := 0, ColumnStart := 3, ColumnEnd := 3 },
   { type := .ClosedBrace, Value := "", Line := 0, ColumnStart := 4, ColumnEnd := 4 },
   { type := .EOF, Value := "", Line := 0, ColumnStart := 5, ColumnEnd := 5 }]

/-- A lone `fragment` name token: `take` clamps at the last token, so the
definition loop of `parseDocument` re-reads it forever. -/
def fragmentToken : Token :=
  { type := .Name, Value := "fragment", Line := 0, ColumnStart := 0, ColumnEnd := 0 }

/-- C6 counterexample: `parse` never returns a Document — on the well-formed
document `query ( ) { }` it returns bare success, and although the internal
definition loop did build the parsed operation, `parseDocument` throws it
away and returns the empty document; moreover on the token list consisting
of a lone `fragment` name token `parse` does not terminate (it fails with
fuel exhaustion at every fuel), so it neither returns a Document nor raises
a SyntaxError. -/
theorem C6_counterexample_no_document :
    parse 10 ⟨queryTokens, 0⟩ = .ok () ∧
    parseDocumentLoop 10 ⟨queryTokens, 0⟩ [] [] =
      .ok (([{ operationType := "query", operationName := "", varDefs := [],
               directives := ⟨⟩, selectionSet := ⟨⟩ }], []), ⟨queryTokens, 5⟩) ∧
    parseDocument 10 ⟨queryTokens, 0⟩ = .ok (⟨[], []⟩, ⟨queryTokens, 5⟩) ∧
    (∀ fuel : Nat, parse fuel ⟨[fragmentToken], 0⟩ = .error .outOfFuel) := by
  refine ⟨rfl, rfl, rfl, ?_⟩
  have loop : ∀ (n : Nat) (ops : List POperation) (frs : List PFragment),
      parseDocumentLoop n ⟨[fragmentToken], 0⟩ ops frs = .error .outOfFuel := by
    intro n
    induction n with
    | zero => intro ops frs; rfl
    | succ m ih =>
      intro ops frs
      rw [show parseDocumentLoop (m + 1) ⟨[fragmentToken], 0⟩ ops frs =
            parseDocumentLoop m ⟨[fragmentToken], 0⟩ ops (frs ++ [⟨⟩]) from rfl]
      exact ih ops (frs ++ [⟨⟩])
  intro fuel
  have hd : parseDocument fuel ⟨[fragmentToken], 0⟩ = .error .outOfFuel := by
    unfold parseDocument
    rw [show (Parser.mk [fragmentToken] 0).peek = .ok fragmentToken from rfl, pbind_ok]
    rw [if_neg (by decide)]
    rw [loop fuel [] [], pbind_error]
  unfold parse
  rw [hd, pbind_error]

/-!
## Token position tiling (C4)

`nextToken` stamps `ColumnStart := s.column` at entry and
`ColumnEnd := s₂.column - 1` at exit, and hands `s₂` (or
`incrementLine s₂` after a LineTerminator) to the next call, so adjacency
of consecutive spans reduces to: no branch of the switch ever touches the
line counter.  The lemmas below prove that line preservation.
-/

theorem readRune_line (s : LexState) : (readRune s).2.line = s.line := by
  obtain ⟨L, C, SC, inp⟩ := s
  cases inp <;> rfl

theorem peek_line (s : LexState) : (peek s).2.line = s.line := by
  obtain ⟨L, C, SC, inp⟩ := s
  cases inp with
  | nil => rfl
  | cons c rest => rw [peek_cons]

theorem consumeAll_line (f : Char → Bool) (s : LexState) :
    (consumeAll f s).2.line = s.line := by
  obtain ⟨L, C, SC, inp⟩ := s
  rw [consumeAll_state]

theorem consume_line (n : Nat) (f : Char → Bool) (s : LexState) :
    (consume n f s).2.line = s.line :=
  (consume_state n f s).1

theorem consumeNumberExponent_ok_line {value : String} {tt : TokenType} {s : LexState}
    {v : String} {t' : TokenType} {s' : LexState}
    (h : consumeNumberExponent value tt s = .ok (v, t', s')) : s'.line = s.line := by
  unfold consumeNumberExponent at h
  cases hp : peek s with
  | mk o s₁ =>
    have hl₁ : s₁.line = s.line := by
      have h1 := peek_line s
      rw [hp] at h1
      exact h1
    rw [hp] at h
    cases o with
    | none =>
      dsimp only at h
      simp only [Except.ok.injEq, Prod.mk.injEq] at h
      rw [← h.2.2]
      exact hl₁
    | some nextRune =>
      dsimp only at h
      by_cases he : nextRune = 'e' ∨ nextRune = 'E'
      · rw [if_pos he] at h
        cases hp₂ : peek (readRune s₁).2 with
        | mk o₂ s₃ =>
          have hl₃ : s₃.line = s₁.line := by
            have h1 := peek_line (readRune s₁).2
            rw [hp₂] at h1
            rw [h1, readRune_line]
          rw [hp₂] at h
          cases o₂ with
          | none =>
            dsimp only at h
            exact Except.noConfusion h
          | some nr₂ =>
            dsimp only at h
            by_cases hs : nr₂ = '+' ∨ nr₂ = '-'
            · rw [if_pos hs] at h
              dsimp only at h
              cases hca : consumeAll isIntegerCharacter (readRune s₃).2 with
              | mk ep s₄ =>
                rw [hca] at h
                dsimp only at h
                have hl₄ : s₄.line = s₃.line := by
                  have h1 := consumeAll_line isIntegerCharacter (readRune s₃).2
                  rw [hca] at h1
                  rw [h1, readRune_line]
                by_cases hee : ep = ""
                · rw [if_pos hee] at h
                  exact Except.noConfusion h
                · rw [if_neg hee] at h
                  simp only [Except.ok.injEq, Prod.mk.injEq] at h
                  rw [← h.2.2, hl₄, hl₃, hl₁]
            · rw [if_neg hs] at h
              dsimp only at h
              cases hca : consumeAll isIntegerCharacter s₃ with
              | mk ep s₄ =>
                rw [hca] at h
                dsimp only at h
                have hl₄ : s₄.line = s₃.line := by
                  have h1 := consumeAll_line isIntegerCharacter s₃
                  rw [hca] at h1
                  exact h1
                by_cases hee : ep = ""
                · rw [if_pos hee] at h
                  exact Except.noConfusion h
                · rw [if_neg hee] at h
                  simp only [Except.ok.injEq, Prod.mk.injEq] at h
                  rw [← h.2.2, hl₄, hl₃, hl₁]
      · rw [if_neg he] at h
        simp only [Except.ok.injEq, Prod.mk.injEq] at h
        rw [← h.2.2]
        exact hl₁

theorem consumeNumberFraction_ok_line {value : String} {s : LexState}
    {v : String} {t' : TokenType} {s' : LexState}
    (h : consumeNumberFraction value s = .ok (v, t', s')) : s'.line = s.line := by
  unfold consumeNumberFraction at h
  cases hp : peek s with
  | mk o s₁ =>
    have hl₁ : s₁.line = s.line := by
      have h1 := peek_line s
      rw [hp] at h1
      exact h1
    rw [hp] at h
    cases o with
    | none =>
      dsimp only at h
      rw [consumeNumberExponent_ok_line h]
      exact hl₁
    | some nextRune =>
      dsimp only at h
      by_cases hd : nextRune = '.'
      · rw [if_pos hd] at h
        cases hca : consumeAll isIntegerCharacter (readRune s₁).2 with
        | mk fp s₃ =>
          rw [hca] at h
          dsimp only at h
          have hl₃ : s₃.line = s₁.line := by
            have h1 := consumeAll_line isIntegerCharacter (readRune s₁).2
            rw [hca] at h1
            rw [h1, readRune_line]
          by_cases hf : fp = ""
          · rw [if_pos hf] at h
            exact Except.noConfusion h
          · rw [if_neg hf] at h
            rw [consumeNumberExponent_ok_line h, hl₃, hl₁]
      · rw [if_neg hd] at h
        rw [consumeNumberExponent_ok_line h, hl₁]

theorem consumeNumber_ok_line {first : Char} {s : LexState}
    {v : String} {t' : TokenType} {s' : LexState}
    (h : consumeNumber first s = .ok (v, t', s')) : s'.line = s.line := by
  unfold consumeNumber at h
  cases hp : peek s with
  | mk o s₁ =>
    have hl₁ : s₁.line = s.line := by
      have h1 := peek_line s
      rw [hp] at h1
      exact h1
    rw [hp] at h
    cases o with
    | none =>
      dsimp only at h
      by_cases hm : first = '-'
      · rw [if_pos hm] at h
        exact Except.noConfusion h
      · rw [if_neg hm] at h
        rw [consumeNumberFraction_ok_line h, hl₁]
    | some nextRune =>
      dsimp only at h
      by_cases hi : isIntegerCharacter nextRune = true
      · rw [if_pos hi] at h
        by_cases hz : first = '-' ∧ nextRune = '0'
        · rw [if_pos hz] at h
          rw [consumeNumberFraction_ok_line h, readRune_line, hl₁]
        · rw [if_neg hz] at h
          cases hca : consumeAll isIntegerCharacter s₁ with
          | mk str s₂ =>
            rw [hca] at h
            dsimp only at h
            have hl₂ : s₂.line = s₁.line := by
              have h1 := consumeAll_line isIntegerCharacter s₁
              rw [hca] at h1
              exact h1
            rw [consumeNumberFraction_ok_line h, hl₂, hl₁]
      · rw [if_neg hi] at h
        by_cases hm : first = '-'
        · rw [if_pos hm] at h
          simp only [Except.ok.injEq, Prod.mk.injEq] at h
          rw [← h.2.2]
          exact hl₁
        · rw [if_neg hm] at h
          rw [consumeNumberFraction_ok_line h, hl₁]

theorem consumeStringLoopGo_ok_line : ∀ (fuel : Nat) (value : String) (s : LexState)
    (v : String) (s' : LexState),
    consumeStringLoopGo fuel value s = .ok (v, s') → s'.line = s.line := by
  intro fuel
  induction fuel with
  | zero =>
    intro value s v s' h
    exact Except.noConfusion h
  | succ n ih =>
    intro value s v s' h
    simp only [consumeStringLoopGo] at h
    cases hca : consumeAll isStringCharacter s with
    | mk str s₁ =>
      rw [hca] at h
      dsimp only at h
      have hl₁ : s₁.line = s.line := by
        have h1 := consumeAll_line isStringCharacter s
        rw [hca] at h1
        exact h1
      cases hr : readRune s₁ with
      | mk o s₂ =>
        rw [hr] at h
        have hl₂ : s₂.line = s₁.line := by
          have h1 := readRune_line s₁
          rw [hr] at h1
          exact h1
        cases o with
        | none =>
          dsimp only at h
          exact Except.noConfusion h
        | some r =>
          dsimp only at h
          by_cases hq : r = '"'
          · rw [if_pos hq] at h
            simp only [Except.ok.injEq, Prod.mk.injEq] at h
            rw [← h.2, hl₂, hl₁]
          · rw [if_neg hq] at h
            by_cases hb : r = '\\'
            · rw [if_pos hb] at h
              cases hes : consumeStringEscapeSequence (value ++ str) s₂ with
              | error e =>
                rw [hes] at h
                exact Except.noConfusion h
              | ok a =>
                rw [hes] at h
                obtain ⟨v₂, s₃⟩ := a
                dsimp only at h
                have hl₃ := (consumeStringEscapeSequence_ok_state hes).1
                rw [ih _ _ _ _ h, hl₃, hl₂, hl₁]
            · rw [if_neg hb] at h
              exact Except.noConfusion h

theorem consumeString_ok_line {s : LexState} {v : String} {s' : LexState}
    (h : consumeString s = .ok (v, s')) : s'.line = s.line :=
  consumeStringLoopGo_ok_line _ _ _ _ _ h

/-- No branch of the `nextToken` switch changes the line counter. -/
theorem nextTokenBranch_line {r : Char} {s₁ : LexState} {tt : TokenType} {v : String}
    {s₂ : LexState} (h : nextTokenBranch r s₁ = .ok (tt, v, s₂)) : s₂.line = s₁.line := by
  unfold nextTokenBranch at h
  by_cases h01 : r = '{'
  · rw [if_pos h01] at h
    simp only [Except.ok.injEq, Prod.mk.injEq] at h
    rw [← h.2.2]
  rw [if_neg h01] at h
  by_cases h02 : r = '}'
  · rw [if_pos h02] at h
    simp only [Except.ok.injEq, Prod.mk.injEq] at h
    rw [← h.2.2]
  rw [if_neg h02] at h
  by_cases h03 : r = '('
  · rw [if_pos h03] at h
    simp only [Except.ok.injEq, Prod.mk.injEq] at h
    rw [← h.2.2]
  rw [if_neg h03] at h
  by_cases h04 : r = ')'
  · rw [if_pos h04] at h
    simp only [Except.ok.injEq, Prod.mk.injEq] at h
    rw [← h.2.2]
  rw [if_neg h04] at h
  by_cases h05 : r = '['
  · rw [if_pos h05] at h
    simp only [Except.ok.injEq, Prod.mk.injEq] at h
    rw [← h.2.2]
  rw [if_neg h05] at h
  by_cases h06 : r = ']'
  · rw [if_pos h06] at h
    simp only [Except.ok.injEq, Prod.mk.injEq] at h
    rw [← h.2.2]
  rw [if_neg h06] at h
  by_cases h07 : r = '='
  · rw [if_pos h07] at h
    simp only [Except.ok.injEq, Prod.mk.injEq] at h
    rw [← h.2.2]
  rw [if_neg h07] at h
  by_cases h08 : r = '!'
  · rw [if_pos h08] at h
    simp only [Except.ok.injEq, Prod.mk.injEq] at h
    rw [← h.2.2]
  rw [if_neg h08] at h
  by_cases h09 : r = '$'
  · rw [if_pos h09] at h
    simp only [Except.ok.injEq, Prod.mk.injEq] at h
    rw [← h.2.2]
  rw [if_neg h09] at h
  by_cases h10 : r = ':'
  · rw [if_pos h10] at h
    simp only [Except.ok.injEq, Prod.mk.injEq] at h
    rw [← h.2.2]
  rw [if_neg h10] at h
  by_cases h11 : r = '@'
  · rw [if_pos h11] at h
    simp only [Except.ok.injEq, Prod.mk.injEq] at h
    rw [← h.2.2]
  rw [if_neg h11] at h
  by_cases h12 : r = '|'
  · rw [if_pos h12] at h
    simp only [Except.ok.injEq, Prod.mk.injEq] at h
    rw [← h.2.2]
  rw [if_neg h12] at h
  by_cases h13 : r = '.'
  · rw [if_pos h13] at h
    cases hcm : consume 2 isPeriod s₁ with
    | mk p s₂' =>
      obtain ⟨str, e⟩ := p
      rw [hcm] at h
      cases e with
      | none =>
        dsimp only at h
        simp only [Except.ok.injEq, Prod.mk.injEq] at h
        rw [← h.2.2]
        have h1 := consume_line 2 isPeriod s₁
        rw [hcm] at h1
        exact h1
      | some e' =>
        dsimp only at h
        exact Except.noConfusion h
  rw [if_neg h13] at h
  by_cases h14 : r = '\u000D'
  · rw [if_pos h14] at h
    cases hp : peek s₁ with
    | mk o s₂' =>
      have hl : s₂'.line = s₁.line := by
        have h1 := peek_line s₁
        rw [hp] at h1
        exact h1
      rw [hp] at h
      cases o with
      | none =>
        dsimp only at h
        simp only [Except.ok.injEq, Prod.mk.injEq] at h
        rw [← h.2.2]
        exact hl
      | some nextr =>
        dsimp only at h
        by_cases hn : nextr = '\u000A'
        · rw [if_pos hn] at h
          simp only [Except.ok.injEq, Prod.mk.injEq] at h
          rw [← h.2.2, readRune_line]
          exact hl
        · rw [if_neg hn] at h
          simp only [Except.ok.injEq, Prod.mk.injEq] at h
          rw [← h.2.2]
          exact hl
  rw [if_neg h14] at h
  by_cases h15 : r = '\u000A'
  · rw [if_pos h15] at h
    simp only [Except.ok.injEq, Prod.mk.injEq] at h
    rw [← h.2.2]
  rw [if_neg h15] at h
  by_cases h16 : r = ',' ∨ r = '\u0009' ∨ r = ' '
  · rw [if_pos h16] at h
    simp only [Except.ok.injEq, Prod.mk.injEq] at h
    rw [← h.2.2]
  rw [if_neg h16] at h
  by_cases h17 : r = '_' ∨ ('a' ≤ r ∧ r ≤ 'z') ∨ ('A' ≤ r ∧ r ≤ 'Z')
  · rw [if_pos h17] at h
    cases hca : consumeAll isNameCharacter s₁ with
    | mk str s₂' =>
      rw [hca] at h
      dsimp only at h
      simp only [Except.ok.injEq, Prod.mk.injEq] at h
      rw [← h.2.2]
      have h1 := consumeAll_line isNameCharacter s₁
      rw [hca] at h1
      exact h1
  rw [if_neg h17] at h
  by_cases h18 : r = '"'
  · rw [if_pos h18] at h
    cases hcs : consumeString s₁ with
    | error e =>
      rw [hcs] at h
      exact Except.noConfusion h
    | ok a =>
      rw [hcs] at h
      obtain ⟨val, s₂'⟩ := a
      dsimp only at h
      simp only [Except.ok.injEq, Prod.mk.injEq] at h
      rw [← h.2.2]
      exact consumeString_ok_line hcs
  rw [if_neg h18] at h
  by_cases h19 : r = '-' ∨ ('0' ≤ r ∧ r ≤ '9')
  · rw [if_pos h19] at h
    cases hcn : consumeNumber r s₁ with
    | error e =>
      rw [hcn] at h
      exact Except.noConfusion h
    | ok a =>
      rw [hcn] at h
      obtain ⟨val, t₀, s₂'⟩ := a
      dsimp only at h
      simp only [Except.ok.injEq, Prod.mk.injEq] at h
      rw [← h.2.2]
      exact consumeNumber_ok_line hcn
  rw [if_neg h19] at h
  by_cases h20 : r = '#'
  · rw [if_pos h20] at h
    cases hca : consumeAll IsCommentCharacter s₁ with
    | mk str s₂' =>
      rw [hca] at h
      dsimp only at h
      simp only [Except.ok.injEq, Prod.mk.injEq] at h
      rw [← h.2.2]
      have h1 := consumeAll_line IsCommentCharacter s₁
      rw [hca] at h1
      exact h1
  rw [if_neg h20] at h
  by_cases h21 : r = '\uFEFF'
  · rw [if_pos h21] at h
    simp only [Except.ok.injEq, Prod.mk.injEq] at h
    rw [← h.2.2]
  rw [if_neg h21] at h
  exact Except.noConfusion h

/-- Every token is stamped with the line and column at which `nextToken`
started. -/
theorem nextToken_ok_start {s : LexState} {t : Token} {s' : LexState}
    (h : nextToken s = .ok (t, s')) : t.Line = s.line ∧ t.ColumnStart = s.column := by
  unfold nextToken at h
  cases hr : readRune s with
  | mk o s₁ =>
    rw [hr] at h
    cases o with
    | none =>
      dsimp only at h
      simp only [Except.ok.injEq, Prod.mk.injEq] at h
      rw [← h.1]
      exact ⟨rfl, rfl⟩
    | some r =>
      dsimp only at h
      cases hb : nextTokenBranch r s₁ with
      | error e =>
        rw [hb] at h
        exact Except.noConfusion h
      | ok a =>
        rw [hb] at h
        obtain ⟨tt, v, s₂⟩ := a
        dsimp only at h
        by_cases hlt : tt = .LineTerminator
        · rw [if_pos hlt] at h
          simp only [Except.ok.injEq, Prod.mk.injEq] at h
          rw [← h.1]
          exact ⟨rfl, rfl⟩
        · rw [if_neg hlt] at h
          simp only [Except.ok.injEq, Prod.mk.injEq] at h
          rw [← h.1]
          exact ⟨rfl, rfl⟩

/-- The state `nextToken` passes on: after a LineTerminator the line is
incremented and the column reset to 0; after any other non-EOF token the
line is unchanged and the column sits one past the token's `ColumnEnd`. -/
theorem nextToken_ok_next {s : LexState} {t : Token} {s' : LexState}
    (h : nextToken s = .ok (t, s')) (hne : t.type ≠ .EOF) :
    (t.type = .LineTerminator → s'.line = t.Line + 1 ∧ s'.column = 0) ∧
    (t.type ≠ .LineTerminator → s'.line = t.Line ∧ s'.column = t.ColumnEnd + 1) := by
  unfold nextToken at h
  cases hr : readRune s with
  | mk o s₁ =>
    have hl₁ : s₁.line = s.line := by
      have h1 := readRune_line s
      rw [hr] at h1
      exact h1
    rw [hr] at h
    cases o with
    | none =>
      dsimp only at h
      simp only [Except.ok.injEq, Prod.mk.injEq] at h
      exact absurd (by rw [← h.1]) hne
    | some r =>
      dsimp only at h
      cases hb : nextTokenBranch r s₁ with
      | error e =>
        rw [hb] at h
        exact Except.noConfusion h
      | ok a =>
        rw [hb] at h
        obtain ⟨tt, v, s₂⟩ := a
        dsimp only at h
        have hbl : s₂.line = s₁.line := nextTokenBranch_line hb
        by_cases hlt : tt = .LineTerminator
        · rw [if_pos hlt] at h
          simp only [Except.ok.injEq, Prod.mk.injEq] at h
          constructor
          · intro _
            rw [← h.2, ← h.1]
            refine ⟨?_, rfl⟩
            show s₂.line + 1 = s.line + 1
            rw [hbl, hl₁]
          · intro hcon
            refine absurd ?_ hcon
            rw [← h.1]
            exact hlt
        · rw [if_neg hlt] at h
          simp only [Except.ok.injEq, Prod.mk.injEq] at h
          constructor
          · intro hcon
            refine absurd ?_ hlt
            rw [← h.1] at hcon
            exact hcon
          · intro _
            rw [← h.2, ← h.1]
            refine ⟨?_, ?_⟩
            · show s₂.line = s.line
              rw [hbl, hl₁]
            · show s₂.column = s₂.column - 1 + 1
              omega

/-- Adjacency of consecutive emitted tokens: a token on the same line
starts exactly one column past the previous token's `ColumnEnd` (spans
tile with no gap and no overlap); the token after a LineTerminator is on
the next line and starts at column 0. -/
def tokenAdjacent (t t' : Token) : Prop :=
  if t.type = .LineTerminator then t'.Line = t.Line + 1 ∧ t'.ColumnStart = 0
  else t'.Line = t.Line ∧ t'.ColumnStart = t.ColumnEnd + 1

instance : DecidableRel tokenAdjacent := fun t t' => by
  unfold tokenAdjacent
  infer_instance

theorem tokenizeLoop_succ (iw : Bool) (fuel : Nat) (s : LexState) :
    tokenizeLoop iw (fuel + 1) s =
      match nextToken s with
      | .error e => some ([], some e)
      | .ok (t, s') =>
        let acc : List Token :=
          if iw = true ∧ (t.type = .Whitespace ∨ t.type = .LineTerminator)
          then [] else [t]
        if t.type = .EOF then some (acc, none)
        else
          match tokenizeLoop iw fuel s' with
          | none => none
          | some (ts, e) => some (acc ++ ts, e) := rfl

/-- Every token list the loop produces (with whitespace kept) is a chain of
adjacent tokens whose first token starts at the loop's entry line and
column. -/
theorem tokenizeLoop_pos : ∀ (fuel : Nat) (s : LexState) (ts : List Token) (e : Option String),
    tokenizeLoop false fuel s = some (ts, e) →
    List.Chain' tokenAdjacent ts ∧
    ∀ t ∈ ts.head?, t.Line = s.line ∧ t.ColumnStart = s.column := by
  intro fuel
  induction fuel with
  | zero =>
    intro s ts e h
    exact Option.noConfusion h
  | succ n ih =>
    intro s ts e h
    rw [tokenizeLoop_succ] at h
    cases hnt : nextToken s with
    | error er =>
      rw [hnt] at h
      dsimp only at h
      simp only [Option.some.injEq, Prod.mk.injEq] at h
      rw [← h.1]
      refine ⟨List.chain'_nil, ?_⟩
      intro t ht
      exact Option.noConfusion ht
    | ok a =>
      rw [hnt] at h
      obtain ⟨t, s'⟩ := a
      dsimp only at h
      have hacc : ¬(false = true ∧ (t.type = .Whitespace ∨ t.type = .LineTerminator)) := by
        simp
      rw [if_neg hacc] at h
      by_cases he : t.type = .EOF
      · rw [if_pos he] at h
        simp only [Option.some.injEq, Prod.mk.injEq] at h
        rw [← h.1]
        refine ⟨List.chain'_singleton t, ?_⟩
        intro t' ht'
        simp only [List.head?_cons, Option.mem_def, Option.some.injEq] at ht'
        rw [← ht']
        exact nextToken_ok_start hnt
      · rw [if_neg he] at h
        cases hlp : tokenizeLoop false n s' with
        | none =>
          rw [hlp] at h
          exact Option.noConfusion h
        | some b =>
          rw [hlp] at h
          obtain ⟨ts', e'⟩ := b
          dsimp only at h
          simp only [Option.some.injEq, Prod.mk.injEq] at h
          obtain ⟨hts, hee⟩ := h
          obtain ⟨hch, hhd⟩ := ih s' ts' e' hlp
          rw [← hts, List.singleton_append]
          constructor
          · rw [List.chain'_cons']
            refine ⟨?_, hch⟩
            intro t' ht'
            have hst := hhd t' ht'
            have hnx := nextToken_ok_next hnt he
            unfold tokenAdjacent
            by_cases hlt : t.type = .LineTerminator
            · rw [if_pos hlt]
              obtain ⟨hl, hc⟩ := hnx.1 hlt
              exact ⟨by rw [hst.1, hl], by rw [hst.2, hc]⟩
            · rw [if_neg hlt]
              obtain ⟨hl, hc⟩ := hnx.2 hlt
              exact ⟨by rw [hst.1, hl], by rw [hst.2, hc]⟩
          · intro t' ht'
            simp only [List.head?_cons, Option.mem_def, Option.some.injEq] at ht'
            rw [← ht']
            exact nextToken_ok_start hnt

/-- C4: every token emitted by the scanner, including the EOF token,
carries `{Line, ColumnStart, ColumnEnd}`, and for any input tokenized with
whitespace kept the spans of consecutive tokens tile the column range: a
token on the same line starts exactly at the previous token's
`ColumnEnd + 1` (no gaps or overlaps), after every LineTerminator token
the line counter is incremented and the next token starts at column 0,
and the first token starts at line 0, column 0. -/
theorem C4_token_position_tiling (fuel : Nat) (src : String) (ts : List Token)
    (e : Option String) (h : Tokenize fuel src false = some (ts, e)) :
    List.Chain' tokenAdjacent ts ∧
    ∀ t ∈ ts.head?, t.Line = 0 ∧ t.ColumnStart = 0 :=
  tokenizeLoop_pos fuel (initLexState src) ts e h

/-- The token list of `"a b\nc"` (whitespace kept). -/
def tilingWitnessTokens : List Token :=
  [{ type := .Name, Value := "a", Line := 0, ColumnStart := 0, ColumnEnd := 0 },
   { type := .Whitespace, Value := "", Line := 0, ColumnStart := 1, ColumnEnd := 1 },
   { type := .Name, Value := "b", Line := 0, ColumnStart := 2, ColumnEnd := 2 },
   { type := .LineTerminator, Value := "", Line := 0, ColumnStart := 3, ColumnEnd := 3 },
   { type := .Name, Value := "c", Line := 1, ColumnStart := 0, ColumnEnd := 1 },
   { type := .EOF, Value := "", Line := 1, ColumnStart := 2, ColumnEnd := 2 }]

theorem C4_token_position_tiling_witness :
    List.Chain' tokenAdjacent tilingWitnessTokens ∧
    ∀ t ∈ tilingWitnessTokens.head?, t.Line = 0 ∧ t.ColumnStart = 0 :=
  C4_token_position_tiling 20 "a b\nc" tilingWitnessTokens none rfl
